import Mathlib

/-!
# Verification of the hwpxlib HWPX reader/writer

A shallow embedding of the Python sources of the hwpxlib repository
(`reader.py`, `writer.py`, `compatible_writer.py`, `text_modifier.py`,
`text_extractor.py`, `blank_file_maker.py`) together with proofs about
the claims made by the natural-language specification.

Modelling conventions:
* Byte strings (Python `bytes` and `str`) are modelled as Lean `String`;
  UTF-8 encode/decode is the identity on this model.
* A ZIP archive is a list of entries `(name, compress_type, data)` in
  archive order, together with `docs`, an association from entry names to
  the `ElementTree` document that `ET.parse` yields on that entry's bytes
  (no binding means the bytes are not well-formed XML).  This is the
  shallow embedding of the external XML parser: the Python code branches
  only on parse success and on the resulting tree.
* XML trees use a first-child / next-sibling representation `XTree`; an
  element is a `node` whose `next` field holds its right siblings.
  `elem.text` / `elem.tail` are `Option String` as in ElementTree.
-/

set_option autoImplicit false

/-! ## Association lists with Python `dict` semantics (insertion order kept,
update-in-place, removal preserves the order of the remaining keys) -/

def lookupA {α : Type} : List (String × α) → String → Option α
  | [], _ => none
  | p :: ps, k => if p.1 = k then some p.2 else lookupA ps k

def setA {α : Type} : List (String × α) → String → α → List (String × α)
  | [], k, v => [(k, v)]
  | p :: ps, k, v => if p.1 = k then (k, v) :: ps else p :: setA ps k v

def eraseA {α : Type} : List (String × α) → String → List (String × α)
  | [], _ => []
  | p :: ps, k => if p.1 = k then eraseA ps k else p :: eraseA ps k

def memA {α : Type} (l : List (String × α)) (k : String) : Bool :=
  (lookupA l k).isSome

def getDA {α : Type} (l : List (String × α)) (k : String) (d : α) : α :=
  (lookupA l k).getD d

def addIfAbsent (l : List String) (k : String) : List String :=
  if k ∈ l then l else l ++ [k]

/-! ## Python string primitives (`str.strip`, `str.count`, `str.replace`,
truthiness of optional strings) -/

def pyWsChar (c : Char) : Bool :=
  c = ' ' || c = '\t' || c = '\n' || c = '\r' || c = '\x0b' || c = '\x0c'

/-- Python `str.strip()`: removes leading AND trailing whitespace. -/
def pyStrip (s : String) : String :=
  (((s.data.dropWhile pyWsChar).reverse.dropWhile pyWsChar).reverse).asString

/-- Trailing-only trim (`str.rstrip()`), used to state the spec's reading
of the mimetype comparison ("after trimming trailing whitespace only"). -/
def pyRstrip (s : String) : String :=
  ((s.data.reverse.dropWhile pyWsChar).reverse).asString

/-- `pfxOf p l` holds when the char list `p` is an initial segment of `l`. -/
def pfxOf : List Char → List Char → Bool
  | [], _ => true
  | _ :: _, [] => false
  | a :: as, b :: bs => a == b && pfxOf as bs

/-- Fuel-driven core of Python `str.count` for a non-empty needle: counts
non-overlapping occurrences scanning left to right. -/
def countFuel (S : List Char) : Nat → List Char → Nat
  | 0, _ => 0
  | _, [] => 0
  | fuel + 1, c :: cs =>
    if pfxOf S (c :: cs) then 1 + countFuel S fuel (cs.drop (S.length - 1))
    else countFuel S fuel cs

/-- Fuel-driven core of Python `str.replace` for a non-empty needle. -/
def replaceFuel (S R : List Char) : Nat → List Char → List Char
  | 0, l => l
  | _, [] => []
  | fuel + 1, c :: cs =>
    if pfxOf S (c :: cs) then R ++ replaceFuel S R fuel (cs.drop (S.length - 1))
    else c :: replaceFuel S R fuel cs

/-- Python `text.count(S)` (for empty `S`, Python returns `len(text) + 1`). -/
def pyCount (S text : String) : Nat :=
  if S.data.isEmpty then text.data.length + 1
  else countFuel S.data text.data.length text.data

/-- Python `text.replace(S, R)` (for empty `S`, Python interleaves `R`
around every character). -/
def pyReplace (S R text : String) : String :=
  if S.data.isEmpty then
    (R.data ++ text.data.foldr (fun c acc => c :: R.data ++ acc) []).asString
  else (replaceFuel S.data R.data text.data.length text.data).asString

/-- Python truthiness of an optional string (`if elem.text:`):
`None` and the empty string are falsy. -/
def pyTruthy : Option String → Bool
  | none => false
  | some s => !s.isEmpty

/-! ## XML trees (ElementTree model)

First-child / next-sibling representation: `node tag attrib text tail
children next`.  A document root is a `node` whose `next` is `nil`.
Tags are stored the ElementTree way: `"\x7buri\x7dlocal"` for a
namespace-qualified name, a bare local name otherwise. -/

inductive XTree : Type where
  | nil : XTree
  | node (tag : String) (attrib : List (String × String))
      (text : Option String) (tail : Option String)
      (children : XTree) (next : XTree) : XTree

/-- Qualified tag constructor: ElementTree writes `{uri}local`. -/
def qn (uri lcl : String) : String :=
  "\x7b" ++ uri ++ "\x7d" ++ lcl

/-- A leaf element with no children. -/
def xleaf (tag : String) (attrib : List (String × String))
    (text tail : Option String) : XTree :=
  .node tag attrib text tail .nil .nil

/-- The local part of an ElementTree tag (`{uri}local ↦ local`). -/
def localName (tag : String) : String :=
  match tag.data with
  | c :: rest =>
    if c = Char.ofNat 123 then
      ((rest.dropWhile (fun d => d ≠ Char.ofNat 125)).drop 1).asString
    else tag
  | [] => tag

/-- The namespace URI of an ElementTree tag, if any. -/
def nsURI (tag : String) : Option String :=
  match tag.data with
  | c :: rest =>
    if c = Char.ofNat 123 then
      some ((rest.takeWhile (fun d => d ≠ Char.ofNat 125)).asString)
    else none
  | [] => none

/-- All elements of a forest in document (pre-)order, as their
`(tag, attrib, text, tail)` data. `tree.iter()` of ElementTree yields
exactly these, root included. -/
def XTree.elems : XTree → List (String × List (String × String) × Option String × Option String)
  | .nil => []
  | .node tag attrib text tail children next =>
    (tag, attrib, text, tail) :: children.elems ++ next.elems

/-- Direct children (one sibling level) with the given local name. -/
def XTree.childrenWithLocal (lcl : String) : XTree → List XTree
  | .nil => []
  | .node tag attrib text tail children next =>
    (if localName tag = lcl then [XTree.node tag attrib text tail children .nil] else [])
      ++ next.childrenWithLocal lcl

/-- Strict descendants (any depth, document order) with the given local
name, as ElementTree's `root.findall(".//\x7b*\x7d" + lcl)`. The search is
applied to a forest; for an element it is applied to its children. -/
def XTree.descWithLocal (lcl : String) : XTree → List XTree
  | .nil => []
  | .node tag attrib text tail children next =>
    (if localName tag = lcl then [XTree.node tag attrib text tail children .nil] else [])
      ++ children.descWithLocal lcl ++ next.descWithLocal lcl

/-! ## Text-node traversals

`text_modifier.modify_hwpx_text` walks `tree.iter()` and, for each element,
looks at `elem.text` then `elem.tail`, applying the modifier only to truthy
values and writing back only when the result differs (writing back an equal
value is the identity, so `mapTexts` simply applies the function). -/

/-- `applyIfTruthy f v` is the new value of a text slot after
`if v: v = f(v) if f(v) != v else v`. -/
def applyIfTruthy (f : String → String) : Option String → Option String
  | none => none
  | some s => if s.isEmpty then some s else some (f s)

/-- Apply a text transform to every element's `text` and `tail`
(the in-place mutation loop of `modify_hwpx_text`). -/
def XTree.mapTexts (f : String → String) : XTree → XTree
  | .nil => .nil
  | .node tag attrib text tail children next =>
    .node tag attrib (applyIfTruthy f text) (applyIfTruthy f tail)
      (children.mapTexts f) (next.mapTexts f)

/-- `(old, new)` value pairs of every truthy text slot, in the order the
modification loop visits them (per element: text, then tail, then the
children, then the right siblings). -/
def XTree.textPairs (f : String → String) : XTree → List (String × String)
  | .nil => []
  | .node _ _ text tail children next =>
    (match text with
     | some s => if s.isEmpty then [] else [(s, f s)]
     | none => []) ++
    (match tail with
     | some s => if s.isEmpty then [] else [(s, f s)]
     | none => []) ++
    children.textPairs f ++ next.textPairs f

/-- The `has_modifications` flag computed by the loop of
`modify_hwpx_text`: some truthy text or tail is changed by the transform. -/
def XTree.textsChangedB (f : String → String) : XTree → Bool
  | .nil => false
  | .node _ _ text tail children next =>
    (pyTruthy text && (f (text.getD "") != text.getD "")) ||
    (pyTruthy tail && (f (tail.getD "") != tail.getD "")) ||
    children.textsChangedB f || next.textsChangedB f

/-- The truthy text-slot values in visit order (text, tail, children,
siblings). -/
def XTree.textValues : XTree → List String
  | .nil => []
  | .node _ _ text tail children next =>
    (match text with
     | some s => if s.isEmpty then [] else [s]
     | none => []) ++
    (match tail with
     | some s => if s.isEmpty then [] else [s]
     | none => []) ++
    children.textValues ++ next.textValues

/-- The per-tree occurrence count accumulated by the `replacer` closure of
`replace_text_in_hwpx` (case-sensitive path): `text.count(search_text)` is
added for every truthy text and tail visited. -/
def XTree.countTexts (S : String) : XTree → Nat
  | .nil => 0
  | .node _ _ text tail children next =>
    (if pyTruthy text then pyCount S (text.getD "") else 0) +
    (if pyTruthy tail then pyCount S (tail.getD "") else 0) +
    children.countTexts S + next.countTexts S

/-- The truthy `(slot, value)` pairs of a tree: `"text"` for element body
text, `"tail"` for tail text, emitted body-then-tail before descending. -/
def XTree.textSlots : XTree → List (String × String)
  | .nil => []
  | .node _ _ text tail children next =>
    (match text with
     | some s => if s.isEmpty then [] else [("text", s)]
     | none => []) ++
    (match tail with
     | some s => if s.isEmpty then [] else [("tail", s)]
     | none => []) ++
    children.textSlots ++ next.textSlots

/-- The truthy body texts of elements whose tag equals `tagName`, in
document order (the collection loop of `text_extractor.extract_text`). -/
def XTree.tagTexts (tagName : String) : XTree → List String
  | .nil => []
  | .node tag _ text _ children next =>
    (if tag = tagName then
       match text with
       | some s => if s.isEmpty then [] else [s]
       | none => []
     else []) ++ children.tagTexts tagName ++ next.tagTexts tagName

/-! ## ZIP archives -/

def ZIP_STORED : Nat := 0
def ZIP_DEFLATED : Nat := 8

structure ZEntry where
  name : String
  compress : Nat
  data : String
deriving DecidableEq

/-- A ZIP archive: the entries in archive order plus the XML-parse oracle
`docs` (what `ET.parse` yields on an entry's bytes; no binding = the bytes
are not well-formed XML). -/
structure Archive where
  entries : List ZEntry
  docs : List (String × XTree)

/-- `zf.read(name)` / `name in zf.namelist()`: zipfile resolves names
through a name→info dict built in archive order. -/
def entryData (a : Archive) (n : String) : Option String :=
  lookupA (a.entries.foldl (fun m e => setA m e.name e.data) []) n

/-- `compatible_writer.extract_compression_info`: per-entry compression
methods of the source archive, as a dict built in archive order. -/
def extract_compression_info (a : Archive) : List (String × Nat) :=
  a.entries.foldl (fun m e => setA m e.name e.compress) []

def exceptOk {ε α : Type} : Except ε α → Bool
  | .ok _ => true
  | .error _ => false

/-! ## Reader (`src/reader.py`) -/

def MIMETYPE : String := "application/hwp+zip"

structure ManifestItem where
  href : String
  media_type : String
deriving DecidableEq

/-- `reader._check_mimetype`: reads the `mimetype` entry and compares its
decoded content, after Python `str.strip()` (leading AND trailing
whitespace removed), with `MIMETYPE`. -/
def check_mimetype (a : Archive) : Except String Unit :=
  match entryData a "mimetype" with
  | none => .error "Not a valid HWPX file: missing mimetype"
  | some d =>
    if pyStrip d = MIMETYPE then .ok ()
    else .error "Not a valid HWPX file: incorrect mimetype"

/-- `reader._read_xml`: a missing entry (`KeyError`) yields `None`; a
present entry is fed to `ET.parse`, which raises on malformed XML (the
only tolerated failure is the missing entry). -/
def read_xml (a : Archive) (name : String) : Except String (Option XTree) :=
  match entryData a name with
  | none => .ok none
  | some _ =>
    match lookupA a.docs name with
    | some t => .ok (some t)
    | none => .error ("ParseError: " ++ name)

/-- `reader._parse_container`: scan every `(.//\x7b*\x7drootfile)` element;
the package path is the `full-path` of the last rootfile whose
`media-type` is `application/hwpml-package+xml` (possibly `None`); other
rootfiles with a truthy `full-path` are collected as attachments. -/
def parse_container (container_xml : Option XTree) : Option String × List String :=
  match container_xml with
  | none => (none, [])
  | some root =>
    (XTree.descWithLocal "rootfile" (match root with
      | .nil => .nil
      | .node _ _ _ _ children _ => children)).foldl
      (fun pa e =>
        let full_path := match e with
          | .nil => none
          | .node _ attrib _ _ _ _ => lookupA attrib "full-path"
        let media_type := match e with
          | .nil => none
          | .node _ attrib _ _ _ _ => lookupA attrib "media-type"
        if media_type = some "application/hwpml-package+xml" then
          (full_path, pa.2)
        else match full_path with
          | some f => if f.isEmpty then pa else (pa.1, pa.2 ++ [f])
          | none => pa)
      ((none : Option String), ([] : List String))

/-- `reader._parse_content_manifest`: every
`.//\x7b*\x7dmanifest/\x7b*\x7ditem` element with a truthy `href` yields a
`ManifestItem` (media type defaults to the empty string). -/
def parse_content_manifest (content_hpf : Option XTree) : List ManifestItem :=
  match content_hpf with
  | none => []
  | some root =>
    ((XTree.descWithLocal "manifest" (match root with
        | .nil => .nil
        | .node _ _ _ _ children _ => children)).foldl
      (fun acc m =>
        acc ++ (match m with
          | .nil => []
          | .node _ _ _ _ children _ => children.childrenWithLocal "item")) []).foldl
      (fun items e =>
        let href := match e with
          | .nil => none
          | .node _ attrib _ _ _ _ => lookupA attrib "href"
        let media_type := match e with
          | .nil => ""
          | .node _ attrib _ _ _ _ => getDA attrib "media-type" ""
        match href with
        | some h => if h.isEmpty then items else items ++ [ManifestItem.mk h media_type]
        | none => items) []

/-- One element's visit in `reader._extract_charts`: a truthy `chartIDRef`
attribute not already in the chart map loads the archive entry of that
name; a missing entry is skipped silently. -/
def chartStep (a : Archive) (charts : List (String × String))
    (el : String × List (String × String) × Option String × Option String) :
    List (String × String) :=
  match lookupA el.2.1 "chartIDRef" with
  | some r =>
    if r.isEmpty then charts
    else if memA charts r then charts
    else match entryData a r with
      | some d => setA charts r d
      | none => charts
  | none => charts

/-- `reader._extract_charts`: visit every element of `tree.iter()` in
document order. -/
def extract_charts (a : Archive) (tree : XTree) (charts0 : List (String × String)) :
    List (String × String) :=
  tree.elems.foldl (chartStep a) charts0

/-- Modelled from the spec: the in-memory package.  The fields up to
`charts` are the `HWPXFile` dataclass of `src/reader.py`; the spec
additionally requires the reader to track, per XML part, "the original
serialized XML text verbatim" (`original_xml_strings`), the raw bytes of
every archive entry (`all_files`) and the modified-parts set
(`modified_files`) — the writers in `src/writer.py`,
`src/compatible_writer.py` and `src/text_modifier.py` read exactly these
three attributes, but the reader that populates them is not under `src/`. -/
structure HWPXFile where
  version_xml : Option XTree := none
  container_xml : Option XTree := none
  manifest_xml : Option XTree := none
  content_hpf : Option XTree := none
  content_files : List (String × XTree) := []
  binary_files : List (String × String) := []
  charts : List (String × String) := []
  original_xml_strings : List (String × String) := []
  all_files : List (String × String) := []
  modified_files : List String := []

/-- Capture the verbatim original text of an XML part that was parsed
(tree present) and whose entry exists. -/
def captureIf (a : Archive) (orig : List (String × String)) (name : String)
    (t : Option XTree) : List (String × String) :=
  match t, entryData a name with
  | some _, some d => setA orig name d
  | _, _ => orig

/-- One iteration of the manifest-item loop of `HWPXReader.read`: an
`application/xml` item is parsed (`ET.parse` failure is fatal, a missing
entry yields no tree and the item is skipped) and scanned for charts; any
other item is loaded as a binary part (missing entry skipped). -/
def readItemStep (a : Archive) (hwpx : HWPXFile) (item : ManifestItem) :
    Except String HWPXFile :=
  if item.media_type = "application/xml" then do
    let tree? ← read_xml a item.href
    match tree? with
    | some tree =>
      pure { hwpx with
        content_files := setA hwpx.content_files item.href tree,
        original_xml_strings :=
          (match entryData a item.href with
           | some d => setA hwpx.original_xml_strings item.href d
           | none => hwpx.original_xml_strings),
        charts := extract_charts a tree hwpx.charts }
    | none => pure hwpx
  else
    match entryData a item.href with
    | some d => pure { hwpx with binary_files := setA hwpx.binary_files item.href d }
    | none => pure hwpx

/-- Modelled from the spec: `HWPXReader.read` of `src/reader.py` — check
the mimetype, parse the three structural XML parts, resolve the container
rootfiles, then walk the content-package manifest — extended with the
original-text / raw-bytes capture (`original_xml_strings`, `all_files`)
that the spec attributes to the reader and that the writers require; the
control flow and every tolerated/fatal failure is translated directly from
the source. -/
def HWPXReader.read (a : Archive) : Except String HWPXFile := do
  check_mimetype a
  let version ← read_xml a "version.xml"
  let container ← read_xml a "META-INF/container.xml"
  let manifest ← read_xml a "META-INF/manifest.xml"
  let pc := parse_container container
  let hwpx0 : HWPXFile :=
    { version_xml := version, container_xml := container, manifest_xml := manifest,
      binary_files := pc.2.foldl
        (fun bf att => match entryData a att with
          | some d => setA bf att d
          | none => bf) [],
      original_xml_strings :=
        captureIf a (captureIf a (captureIf a [] "version.xml" version)
          "META-INF/container.xml" container) "META-INF/manifest.xml" manifest,
      all_files := a.entries.foldl (fun m e => setA m e.name e.data) [] }
  match pc.1 with
  | none => pure hwpx0
  | some p => do
    let hpf ← read_xml a p
    let hwpx1 : HWPXFile :=
      { hwpx0 with
        content_hpf := hpf,
        original_xml_strings := captureIf a hwpx0.original_xml_strings p hpf }
    (parse_content_manifest hpf).foldlM (readItemStep a) hwpx1

/-! ## ElementTree serialization with the namespace-registration table

`ET.register_namespace(p, uri)` populates a process-wide `uri → p` map
that `ET.tostring` consults when it serializes a qualified name; a URI not
in the map gets an auto-generated name `ns0`, `ns1`, … (numbered by the
size of the per-serialization namespace map so far).  `writer.py`'s
`_register_hwpx_namespaces` fills the table with the HWPX and standard
URIs before any write. -/

/-- The registration table installed by `_register_hwpx_namespaces`
(`uri → registered name`). -/
def hwpxRegistry : List (String × String) :=
  [("http://www.hancom.co.kr/hwpml/2011/app", "ha"),
   ("http://www.hancom.co.kr/hwpml/2011/paragraph", "hp"),
   ("http://www.hancom.co.kr/hwpml/2016/paragraph", "hp10"),
   ("http://www.hancom.co.kr/hwpml/2011/section", "hs"),
   ("http://www.hancom.co.kr/hwpml/2011/core", "hc"),
   ("http://www.hancom.co.kr/hwpml/2011/head", "hh"),
   ("http://www.hancom.co.kr/hwpml/2011/history", "hhs"),
   ("http://www.hancom.co.kr/hwpml/2011/master-page", "hm"),
   ("http://www.hancom.co.kr/schema/2011/hpf", "hpf"),
   ("http://www.hancom.co.kr/hwpml/2011/version", "hv"),
   ("http://www.hancom.co.kr/hwpml/2016/HwpUnitChar", "hwpunitchar"),
   ("http://www.hancom.co.kr/hwpml/2016/ooxmlchart", "ooxmlchart"),
   ("http://purl.org/dc/elements/1.1/", "dc"),
   ("urn:oasis:names:tc:opendocument:xmlns:config:1.0", "config"),
   ("http://www.idpf.org/2007/ops", "epub"),
   ("http://www.idpf.org/2007/opf/", "opf"),
   ("urn:oasis:names:tc:opendocument:xmlns:container", "ocf"),
   ("urn:oasis:names:tc:opendocument:xmlns:manifest:1.0", "odf")]

/-- The namespace URIs a single element mentions: its tag's URI followed
by the URIs of its qualified attribute names. -/
def urisOfElemData (el : String × List (String × String) × Option String × Option String) :
    List String :=
  (nsURI el.1).toList ++ el.2.1.filterMap (fun kv => nsURI kv.1)

/-- All namespace URIs of a tree, in first-encounter (document) order. -/
def urisList (t : XTree) : List String :=
  t.elems.foldl (fun acc el => acc ++ urisOfElemData el) []

/-- Visit one URI during serialization: an already-assigned URI is kept; a
registered URI gets its registered name; anything else gets the
auto-generated placeholder `ns<k>`. -/
def nsVisitUri (reg st : List (String × String)) (uri : String) :
    List (String × String) :=
  if memA st uri then st
  else match lookupA reg uri with
    | some p => st ++ [(uri, p)]
    | none => st ++ [(uri, "ns" ++ toString st.length)]

/-- The URI → serialized-name assignment `ET.tostring` computes for a
tree under registration table `reg`. -/
def nsAssign (reg : List (String × String)) (t : XTree) : List (String × String) :=
  (urisList t).foldl (nsVisitUri reg) []

/-- Is a serialized namespace name an auto-generated placeholder
(`ns0`, `ns1`, …)? -/
def nsAutoGen (s : String) : Bool :=
  (s.data.take 2 = ['n', 's']) && !(s.data.drop 2).isEmpty &&
  (s.data.drop 2).all Char.isDigit

/-- The serialized qualified name of a tag under an assignment. -/
def qnameFor (assign : List (String × String)) (tag : String) : String :=
  match nsURI tag with
  | none => tag
  | some uri => getDA assign uri "ns?" ++ ":" ++ localName tag

def emitAttrs (assign : List (String × String))
    (attrib : List (String × String)) : String :=
  attrib.foldl (fun s kv => s ++ " " ++ qnameFor assign kv.1 ++ "=\"" ++ kv.2 ++ "\"") ""

/-- Markup emission of a forest under a fixed assignment. -/
def XTree.emit (assign : List (String × String)) : XTree → String
  | .nil => ""
  | .node tag attrib text tail children next =>
    "<" ++ qnameFor assign tag ++ emitAttrs assign attrib ++ ">" ++ text.getD "" ++
      children.emit assign ++ "</" ++ qnameFor assign tag ++ ">" ++ tail.getD "" ++
      next.emit assign

def nsDecls (assign : List (String × String)) : String :=
  assign.foldl (fun s p => s ++ " xmlns:" ++ p.2 ++ "=\"" ++ p.1 ++ "\"") ""

/-- `ET.tostring(root, encoding="unicode")` under registration table
`reg`: namespace declarations are hoisted onto the root element. -/
def serializeReg (reg : List (String × String)) (t : XTree) : String :=
  match t with
  | .nil => ""
  | .node tag attrib text tail children next =>
    let assign := nsAssign reg t
    "<" ++ qnameFor assign tag ++ nsDecls assign ++ emitAttrs assign attrib ++ ">" ++
      text.getD "" ++ children.emit assign ++ "</" ++ qnameFor assign tag ++ ">" ++
      tail.getD "" ++ next.emit assign

def xmlDeclStr : String := "<?xml version=\"1.0\" encoding=\"utf-8\"?>\n"

/-- `ET.tostring(tree.getroot(), xml_declaration=True)` as invoked by the
writers, after `_register_hwpx_namespaces()` has installed
`hwpxRegistry`. -/
def serializeDecl (t : XTree) : String :=
  xmlDeclStr ++ serializeReg hwpxRegistry t

/-! ## Compatible writer (`src/compatible_writer.py`) -/

def coreFileNames : List String :=
  ["version.xml", "META-INF/container.xml", "META-INF/manifest.xml",
   "Contents/content.hpf"]

/-- The serialized text of one of the four structural parts:
`hwpx.original_xml_strings.get(name, ET.tostring(tree.getroot(), ...))`.
Python evaluates the `.get` default eagerly, so a `None` tree is an
`AttributeError` (modelled as `none`) even when the original string is
present. -/
def coreSrc (hwpx : HWPXFile) (name : String) (t? : Option XTree) : Option String :=
  match t? with
  | none => none
  | some t => some (getDA hwpx.original_xml_strings name (serializeDecl t))

/-- The document that `ET.parse` yields on the bytes the compatible writer
emits for entry `n`: a passthrough entry keeps the document of the
original bytes, a re-serialized part round-trips to its current tree
(`ET.parse ∘ ET.tostring` is the identity at tree level). -/
def writtenDocCompat (hwpx : HWPXFile) (original : Archive) (n : String) :
    Option XTree :=
  match lookupA hwpx.content_files n with
  | some t =>
    if memA hwpx.original_xml_strings n && !(decide (n ∈ hwpx.modified_files)) then
      lookupA original.docs n
    else some t
  | none =>
    if n ∈ coreFileNames then
      (if memA hwpx.original_xml_strings n then lookupA original.docs n
       else if n = "version.xml" then hwpx.version_xml
       else if n = "META-INF/container.xml" then hwpx.container_xml
       else if n = "META-INF/manifest.xml" then hwpx.manifest_xml
       else hwpx.content_hpf)
    else lookupA original.docs n

/-- The bytes the compatible writer emits for content part `nt`: the
captured original text when the part is un-modified and captured, a fresh
serialization of its current tree otherwise. -/
def compatValue (hwpx : HWPXFile) (nt : String × XTree) : String :=
  if memA hwpx.original_xml_strings nt.1 &&
      !(decide (nt.1 ∈ hwpx.modified_files)) then
    getDA hwpx.original_xml_strings nt.1 ""
  else serializeDecl nt.2

/-- One iteration of the content-file loop of
`save_modified_hwpx_compatible`: `files[name] = xml_content`. -/
def compatFileStep (hwpx : HWPXFile) (fs : List (String × String))
    (nt : String × XTree) : List (String × String) :=
  setA fs nt.1 (compatValue hwpx nt)

/-- `compatible_writer.save_modified_hwpx_compatible`: extract the source
archive's compression info; choose the four structural strings (original
text or re-serialization); build the output file dict from `all_files`,
overwrite the structural entries and every content part (original text
when un-modified and captured, re-serialization otherwise); pop the five
core entries; then `CompatibleHwpxWriter.write` emits `mimetype` first
(stored, fixed content-type string), the four structural parts in fixed
order (source compression, default deflate), then the remaining files in
dict order (source compression, default deflate). -/
def save_modified_hwpx_compatible (hwpx : HWPXFile) (original : Archive) :
    Option Archive := do
  let compression_info := extract_compression_info original
  let version_xml ← coreSrc hwpx "version.xml" hwpx.version_xml
  let container_xml ← coreSrc hwpx "META-INF/container.xml" hwpx.container_xml
  let manifest_xml ← coreSrc hwpx "META-INF/manifest.xml" hwpx.manifest_xml
  let content_hpf ← coreSrc hwpx "Contents/content.hpf" hwpx.content_hpf
  let files0 := hwpx.all_files
  let files1 :=
    setA (setA (setA (setA files0 "version.xml" version_xml)
      "META-INF/container.xml" container_xml)
      "META-INF/manifest.xml" manifest_xml)
      "Contents/content.hpf" content_hpf
  let files2 := hwpx.content_files.foldl (compatFileStep hwpx) files1
  let files3 :=
    eraseA (eraseA (eraseA (eraseA (eraseA files2 "version.xml")
      "META-INF/container.xml") "META-INF/manifest.xml")
      "Contents/content.hpf") "mimetype"
  let entries :=
    ZEntry.mk "mimetype" ZIP_STORED "application/hwp+zip" ::
    (ZEntry.mk "version.xml" (getDA compression_info "version.xml" ZIP_DEFLATED) version_xml ::
     ZEntry.mk "META-INF/container.xml"
       (getDA compression_info "META-INF/container.xml" ZIP_DEFLATED) container_xml ::
     ZEntry.mk "META-INF/manifest.xml"
       (getDA compression_info "META-INF/manifest.xml" ZIP_DEFLATED) manifest_xml ::
     ZEntry.mk "Contents/content.hpf"
       (getDA compression_info "Contents/content.hpf" ZIP_DEFLATED) content_hpf ::
     files3.map (fun nd => ZEntry.mk nd.1 (getDA compression_info nd.1 ZIP_DEFLATED) nd.2))
  pure { entries := entries,
         docs := entries.filterMap
           (fun e => (writtenDocCompat hwpx original e.name).map (fun t => (e.name, t))) }

/-! ## Package writer (`src/writer.py`, class `HwpxWriter`) -/

structure HwpxWriter where
  version_xml : String
  container_xml : String
  manifest_xml : String
  content_hpf : String
  files : List (String × String)
  mimetype : String := "application/haansofthwp"

def opfURI : String := "http://www.idpf.org/2007/opf"

/-- The hrefs referenced by `content_hpf` (`.//opf:item` under the OPF
namespace); a malformed `content_hpf` yields the empty set.  Python keeps
these in a `set`; the model uses a deduplicated document-order list. -/
def hwpxWriterReferenced (hpfDoc : Option XTree) : List String :=
  match hpfDoc with
  | none => []
  | some root =>
    let forest : XTree := match root with
      | .nil => XTree.nil
      | .node _ _ _ _ children _ => children
    forest.elems.foldl
      (fun (acc : List String) el =>
        if el.1 = qn opfURI "item" then
          match lookupA el.2.1 "href" with
          | some h => if h.isEmpty then acc else addIfAbsent acc h
          | none => acc
        else acc) []

/-- `HwpxWriter.write`: `mimetype` first (stored), the four structural
parts (archive-default deflate), the files referenced by the manifest
(`KeyError` if one is not provided), then all remaining files.
`hpfDoc` is the `ET.fromstring` result on `content_hpf`. -/
def HwpxWriter.write (w : HwpxWriter) (hpfDoc : Option XTree) : Option Archive := do
  let referenced := hwpxWriterReferenced hpfDoc
  let refEntries ← referenced.mapM
    (fun p => (lookupA w.files p).map (fun d => ZEntry.mk p ZIP_DEFLATED d))
  let rest := (w.files.filter (fun nd => !(decide (nd.1 ∈ referenced)))).map
    (fun nd => ZEntry.mk nd.1 ZIP_DEFLATED nd.2)
  pure (Archive.mk
    (ZEntry.mk "mimetype" ZIP_STORED w.mimetype ::
     ZEntry.mk "version.xml" ZIP_DEFLATED w.version_xml ::
     ZEntry.mk "META-INF/container.xml" ZIP_DEFLATED w.container_xml ::
     ZEntry.mk "META-INF/manifest.xml" ZIP_DEFLATED w.manifest_xml ::
     ZEntry.mk "Contents/content.hpf" ZIP_DEFLATED w.content_hpf ::
     refEntries ++ rest) [])

/-! ## Blank-file maker (`src/blank_file_maker.py`) -/

def VERSION_XML : String :=
  "<?xml version=\"1.0\" encoding=\"UTF-8\" standalone=\"yes\" ?>" ++
  "<hv:HCFVersion xmlns:hv=\"http://www.hancom.co.kr/hwpml/2011/version\" " ++
  "targetApplication=\"WORDPROCESSOR\" major=\"5\" minor=\"0\" micro=\"5\" " ++
  "buildNumber=\"0\" xmlVersion=\"1.4\" application=\"hwpxlib\" appVersion=\"unknown\"/>"

def MANIFEST_XML : String :=
  "<?xml version=\"1.0\" encoding=\"UTF-8\" standalone=\"yes\" ?>" ++
  "<odf:manifest xmlns:odf=\"urn:oasis:names:tc:opendocument:xmlns:manifest:1.0\"/>"

def CONTAINER_XML : String :=
  "<?xml version=\"1.0\" encoding=\"UTF-8\" standalone=\"yes\" ?>" ++
  "<ocf:container xmlns:ocf=\"urn:oasis:names:tc:opendocument:xmlns:container\" " ++
  "xmlns:hpf=\"http://www.hancom.co.kr/schema/2011/hpf\">" ++
  "<ocf:rootfiles><ocf:rootfile full-path=\"Contents/content.hpf\" " ++
  "media-type=\"application/hwpml-package+xml\"/></ocf:rootfiles></ocf:container>"

def HEADER_XML : String :=
  "<?xml version=\"1.0\" encoding=\"UTF-8\" standalone=\"yes\" ?>" ++
  "<hh:head xmlns:ha=\"http://www.hancom.co.kr/hwpml/2011/app\" " ++
  "xmlns:hp=\"http://www.hancom.co.kr/hwpml/2011/paragraph\"><hh:mainInfo/></hh:head>"

def SECTION_XML : String :=
  "<?xml version=\"1.0\" encoding=\"UTF-8\" standalone=\"yes\" ?>" ++
  "<hs:sec xmlns:hp=\"http://www.hancom.co.kr/hwpml/2011/paragraph\" " ++
  "xmlns:hs=\"http://www.hancom.co.kr/hwpml/2011/section\">" ++
  "<hp:p><hp:run><hp:t/></hp:run></hp:p></hs:sec>"

def SETTINGS_XML : String :=
  "<?xml version=\"1.0\" encoding=\"UTF-8\" standalone=\"yes\" ?>" ++
  "<ha:HWPApplicationSetting xmlns:ha=\"http://www.hancom.co.kr/hwpml/2011/app\" " ++
  "xmlns:config=\"urn:oasis:names:tc:opendocument:xmlns:config:1.0\">" ++
  "<ha:CaretPosition listIDRef=\"0\" paraIDRef=\"0\" pos=\"0\"/></ha:HWPApplicationSetting>"

/-- `CONTENT_TEMPLATE.format(now=now)`: the braces of the Python template
are placeholders filled with the timestamp. -/
def CONTENT_TEMPLATE (now : String) : String :=
  "<?xml version=\"1.0\" encoding=\"UTF-8\" standalone=\"yes\" ?>" ++
  "<opf:package xmlns:ha=\"http://www.hancom.co.kr/hwpml/2011/app\" " ++
  "xmlns:hp=\"http://www.hancom.co.kr/hwpml/2011/paragraph\" " ++
  "xmlns:hs=\"http://www.hancom.co.kr/hwpml/2011/section\" " ++
  "xmlns:opf=\"http://www.idpf.org/2007/opf/\" version=\"\" unique-identifier=\"\">" ++
  "<opf:metadata><opf:title/><opf:language>ko</opf:language>" ++
  "<opf:meta name=\"CreatedDate\" content=\"" ++ now ++ "\"/>" ++
  "<opf:meta name=\"ModifiedDate\" content=\"" ++ now ++ "\"/></opf:metadata>" ++
  "<opf:manifest><opf:item id=\"header\" href=\"Contents/header.xml\" media-type=\"application/xml\"/>" ++
  "<opf:item id=\"section0\" href=\"Contents/section0.xml\" media-type=\"application/xml\"/>" ++
  "<opf:item id=\"settings\" href=\"settings.xml\" media-type=\"application/xml\"/></opf:manifest>" ++
  "<opf:spine><opf:itemref idref=\"header\"/><opf:itemref idref=\"section0\"/></opf:spine></opf:package>"

/-- `blank_file_maker.make_blank`: every entry is written with
`zf.writestr(name, data)` on a `ZipFile(path, "w", ZIP_DEFLATED)`, so every
entry — the `mimetype` entry included — uses the archive default
`ZIP_DEFLATED`. -/
def make_blank (now : String) : Archive :=
  Archive.mk
    [ZEntry.mk "mimetype" ZIP_DEFLATED MIMETYPE,
     ZEntry.mk "version.xml" ZIP_DEFLATED VERSION_XML,
     ZEntry.mk "META-INF/manifest.xml" ZIP_DEFLATED MANIFEST_XML,
     ZEntry.mk "META-INF/container.xml" ZIP_DEFLATED CONTAINER_XML,
     ZEntry.mk "Contents/content.hpf" ZIP_DEFLATED (CONTENT_TEMPLATE now),
     ZEntry.mk "Contents/header.xml" ZIP_DEFLATED HEADER_XML,
     ZEntry.mk "Contents/section0.xml" ZIP_DEFLATED SECTION_XML,
     ZEntry.mk "settings.xml" ZIP_DEFLATED SETTINGS_XML] []

/-! ## Edit operations (`src/text_modifier.py`) -/

/-- The mutation loop of `modify_hwpx_text`: every content tree's truthy
texts and tails are passed through `f` (write-back only when the value
changes, which coincides with applying `f`), and a part is added to
`modified_files` exactly when its `has_modifications` flag was set. -/
def modify_package_texts (hwpx : HWPXFile) (f : String → String) : HWPXFile :=
  { hwpx with
    content_files := hwpx.content_files.map (fun nt => (nt.1, nt.2.mapTexts f)),
    modified_files := hwpx.content_files.foldl
      (fun ms nt => if nt.2.textsChangedB f then addIfAbsent ms nt.1 else ms)
      hwpx.modified_files }

/-- `text_modifier.modify_hwpx_text`: read, mutate all text nodes, save
through the compatible writer (the `_save_modified_hwpx` path taken when
an original path is supplied). -/
def modify_hwpx_text (a : Archive) (f : String → String) :
    Except String (Option Archive) := do
  let hwpx ← HWPXReader.read a
  pure (save_modified_hwpx_compatible (modify_package_texts hwpx f) a)

/-- The total occurrence count accumulated by the `replacer` closure of
`replace_text_in_hwpx` over a whole package (case-sensitive path):
`text.count(search)` summed over every truthy text and tail of every
content part, in visit order. -/
def replace_count (hwpx : HWPXFile) (search : String) : Nat :=
  hwpx.content_files.foldl (fun acc nt => acc + nt.2.countTexts search) 0

/-- `text_modifier.replace_text_in_hwpx` (case-sensitive path): runs
`modify_hwpx_text` with `text.replace(search, repl)` and returns the
written archive together with the accumulated occurrence count. -/
def replace_text_in_hwpx (a : Archive) (search repl : String) :
    Except String (Option Archive × Nat) := do
  let hwpx ← HWPXReader.read a
  pure (save_modified_hwpx_compatible
          (modify_package_texts hwpx (pyReplace search repl)) a,
        replace_count hwpx search)

/-! ## Text extraction (`src/text_extractor.py`) -/

def hpURI : String := "http://www.hancom.co.kr/hwpml/2011/paragraph"

/-- Is an entry name one of the section files the extractor reads? -/
def isSectionName (n : String) : Bool :=
  pfxOf "Contents/section".data n.data &&
  pfxOf ".xml".data.reverse n.data.reverse

/-- `text_extractor.extract_text`: concatenate the truthy body texts of
every `hp:t` element of every `Contents/section*.xml` entry, in archive
order; a section entry whose bytes do not parse makes `ET.fromstring`
raise (`none`). -/
def extract_text (a : Archive) : Option String :=
  (a.entries.filter (fun e => isSectionName e.name)).foldlM
    (fun acc e =>
      match lookupA a.docs e.name with
      | some root => some (acc ++ String.join (root.tagTexts (qn hpURI "t")))
      | none => none) ""

/-- The same extraction read off a package's current content trees (what
`extract_text` returns on the written file, with section parts resolved
through the package). -/
def package_extract_text (hwpx : HWPXFile) : String :=
  String.join (hwpx.content_files.foldl
    (fun acc nt =>
      if isSectionName nt.1 then acc ++ nt.2.tagTexts (qn hpURI "t") else acc) [])

/-! ## Text-node enumeration -/

/-- Modelled from the spec: `enumerate_text_nodes` (imported from
`text_modifier` by the tests but absent from `src/`) — "for each XML part,
in a fixed per-part traversal (pre-order document order), emit a TextNode
for the element's body text if non-empty, then a TextNode for its tail
text if non-empty, before descending"; parts are visited in insertion
order, the global sequence index is the position in the emitted sequence.
The element handle is omitted: a node is `(index, part, slot, text)`. -/
def enumerate_text_nodes (hwpx : HWPXFile) : List (Nat × String × String × String) :=
  let flat := hwpx.content_files.foldl
    (fun acc nt => acc ++ nt.2.textSlots.map (fun sv => (nt.1, sv.1, sv.2))) []
  flat.enum.map (fun p => (p.1, p.2.1, p.2.2.1, p.2.2.2))

/-- The occurrence total of the claim "S occurring M times in total across
all text nodes": `count` summed over the enumerated text nodes. -/
def totalOccurrences (hwpx : HWPXFile) (search : String) : Nat :=
  ((enumerate_text_nodes hwpx).map (fun nd => pyCount search nd.2.2.2)).sum

/-- The number of text nodes whose value is actually changed by a
transform (what the claims call "nodes actually changed"). -/
def changedNodesTotal (hwpx : HWPXFile) (f : String → String) : Nat :=
  (hwpx.content_files.map
    (fun nt => ((nt.2.textPairs f).filter (fun pr => pr.1 != pr.2)).length)).sum

/-- Look up an entry of an archive by name (first match, as a reader
would), returning its compression method and bytes. -/
def lookupEntry (a : Archive) (n : String) : Option (Nat × String) :=
  (a.entries.find? (fun e => e.name = n)).map (fun e => (e.compress, e.data))

/-! ## Concrete archives and packages used as test inputs -/

def hsURI : String := "http://www.hancom.co.kr/hwpml/2011/section"

/-- `META-INF/container.xml` document: one rootfile pointing at
`Contents/content.hpf`. -/
def containerDocW : XTree :=
  .node "container" [] none none
    (.node "rootfiles" [] none none
      (.node "rootfile"
        [("full-path", "Contents/content.hpf"),
         ("media-type", "application/hwpml-package+xml")] none none .nil .nil)
      .nil)
    .nil

/-- `Contents/content.hpf` document: one XML manifest item,
`Contents/section0.xml`. -/
def hpfDocW : XTree :=
  .node "package" [] none none
    (.node "manifest" [] none none
      (.node "item"
        [("href", "Contents/section0.xml"), ("media-type", "application/xml")]
        none none .nil .nil)
      .nil)
    .nil

def versionDocW : XTree := xleaf "HCFVersion" [] none none

def manifestDocW : XTree := xleaf "manifest" [] none none

/-- A section with a single paragraph text node `"Hello"`. -/
def sectionDocW : XTree :=
  .node (qn hsURI "sec") [] none none
    (.node (qn hpURI "t") [] (some "Hello") none .nil .nil) .nil

/-- A canonical archive: `mimetype` first (stored, exact content-type
string), the four structural parts in the writer's fixed order, then one
section part (stored, to exercise compression preservation). -/
def wA : Archive :=
  Archive.mk
    [ZEntry.mk "mimetype" ZIP_STORED MIMETYPE,
     ZEntry.mk "version.xml" ZIP_DEFLATED "<v/>",
     ZEntry.mk "META-INF/container.xml" ZIP_DEFLATED "<c/>",
     ZEntry.mk "META-INF/manifest.xml" ZIP_DEFLATED "<m/>",
     ZEntry.mk "Contents/content.hpf" ZIP_DEFLATED "<h/>",
     ZEntry.mk "Contents/section0.xml" ZIP_STORED "<s>Hello</s>"]
    [("version.xml", versionDocW),
     ("META-INF/container.xml", containerDocW),
     ("META-INF/manifest.xml", manifestDocW),
     ("Contents/content.hpf", hpfDocW),
     ("Contents/section0.xml", sectionDocW)]

/-- The package parsed from `wA` (total projection of the reader's
result). -/
def wPkg : HWPXFile := (HWPXReader.read wA).toOption.getD {}

/-- The archive the compatible writer produces from the un-edited
`wPkg`. -/
def wOut : Archive :=
  (save_modified_hwpx_compatible wPkg wA).getD (Archive.mk [] [])

/-- Like `wA` but with `META-INF/container.xml` archived BEFORE
`version.xml`: a perfectly valid archive whose entry order differs from
the writer's canonical order. -/
def ce1A : Archive :=
  Archive.mk
    [ZEntry.mk "mimetype" ZIP_STORED MIMETYPE,
     ZEntry.mk "META-INF/container.xml" ZIP_DEFLATED "<c/>",
     ZEntry.mk "version.xml" ZIP_DEFLATED "<v/>",
     ZEntry.mk "META-INF/manifest.xml" ZIP_DEFLATED "<m/>",
     ZEntry.mk "Contents/content.hpf" ZIP_DEFLATED "<h/>",
     ZEntry.mk "Contents/section0.xml" ZIP_STORED "<s>Hello</s>"]
    wA.docs

def ce1Out : Option Archive :=
  (HWPXReader.read ce1A).toOption.bind
    (fun hwpx => save_modified_hwpx_compatible hwpx ce1A)

/-- Like `wA` but the `mimetype` entry carries a trailing newline — the
reader accepts it (trailing whitespace is tolerated), yet no writer
reproduces those bytes. -/
def ce2A : Archive :=
  Archive.mk
    [ZEntry.mk "mimetype" ZIP_STORED (MIMETYPE ++ "\n"),
     ZEntry.mk "version.xml" ZIP_DEFLATED "<v/>",
     ZEntry.mk "META-INF/container.xml" ZIP_DEFLATED "<c/>",
     ZEntry.mk "META-INF/manifest.xml" ZIP_DEFLATED "<m/>",
     ZEntry.mk "Contents/content.hpf" ZIP_DEFLATED "<h/>",
     ZEntry.mk "Contents/section0.xml" ZIP_STORED "<s>Hello</s>"]
    wA.docs

/-- `ce2A`, parsed and then edited so that exactly the section part is
structurally modified. -/
def ce2Pkg : HWPXFile :=
  modify_package_texts ((HWPXReader.read ce2A).toOption.getD {}) (fun _ => "X")

def ce2Out : Archive :=
  (save_modified_hwpx_compatible ce2Pkg ce2A).getD (Archive.mk [] [])

/-- An archive whose `mimetype` content matches the content-type string
only after removing LEADING whitespace. -/
def ce4A : Archive :=
  Archive.mk [ZEntry.mk "mimetype" ZIP_STORED (" " ++ MIMETYPE)] []

/-- Like `wA` but the (present) section part is malformed: its bytes have
no parse. -/
def ce5A : Archive :=
  Archive.mk
    [ZEntry.mk "mimetype" ZIP_STORED MIMETYPE,
     ZEntry.mk "version.xml" ZIP_DEFLATED "<v/>",
     ZEntry.mk "META-INF/container.xml" ZIP_DEFLATED "<c/>",
     ZEntry.mk "META-INF/manifest.xml" ZIP_DEFLATED "<m/>",
     ZEntry.mk "Contents/content.hpf" ZIP_DEFLATED "<h/>",
     ZEntry.mk "Contents/section0.xml" ZIP_STORED "<s>not xml"]
    [("version.xml", versionDocW),
     ("META-INF/container.xml", containerDocW),
     ("META-INF/manifest.xml", manifestDocW),
     ("Contents/content.hpf", hpfDocW)]

/-- A package with one section part containing a single text node
`"abab"`. -/
def pkg6 : HWPXFile :=
  { content_files :=
      [("Contents/section0.xml", xleaf (qn hpURI "t") [] (some "abab") none)] }

/-- A section with two adjacent text nodes `"a"` and `"b"`: the search
string `"ab"` occurs zero times inside any node but once in the extracted
concatenation. -/
def sectionDoc7 : XTree :=
  .node (qn hsURI "sec") [] none none
    (.node (qn hpURI "t") [] (some "a") none .nil
      (.node (qn hpURI "t") [] (some "b") none .nil .nil)) .nil

def ce7A : Archive :=
  Archive.mk
    [ZEntry.mk "mimetype" ZIP_STORED MIMETYPE,
     ZEntry.mk "version.xml" ZIP_DEFLATED "<v/>",
     ZEntry.mk "META-INF/container.xml" ZIP_DEFLATED "<c/>",
     ZEntry.mk "META-INF/manifest.xml" ZIP_DEFLATED "<m/>",
     ZEntry.mk "Contents/content.hpf" ZIP_DEFLATED "<h/>",
     ZEntry.mk "Contents/section0.xml" ZIP_DEFLATED "<s7/>"]
    [("version.xml", versionDocW),
     ("META-INF/container.xml", containerDocW),
     ("META-INF/manifest.xml", manifestDocW),
     ("Contents/content.hpf", hpfDocW),
     ("Contents/section0.xml", sectionDoc7)]

/-- The result of `replace_text_in_hwpx(ce7A, "ab", "Z")`. -/
def ce7Res : Option Archive × Nat :=
  (replace_text_in_hwpx ce7A "ab" "Z").toOption.getD (none, 0)

/-- A package with several text nodes, for the enumeration claims. -/
def pkg8a : HWPXFile :=
  { content_files :=
      [("Contents/header.xml", xleaf "h" [] (some "H") (some "T")),
       ("Contents/section0.xml", sectionDoc7)] }

/-- `pkg8a` with different binary parts: the same `content_files`, so the
enumeration must coincide. -/
def pkg8b : HWPXFile :=
  { pkg8a with binary_files := [("bin", "BYTES")], modified_files := ["x"] }

/-- A tree whose only namespace URI is the `hp` paragraph URI. -/
def t9 : XTree := xleaf (qn hpURI "p") [] none none

/-- An archive holding one chart entry, and trees referencing it twice
plus a dangling reference. -/
def c10A : Archive :=
  Archive.mk [ZEntry.mk "chart1" ZIP_DEFLATED "CHARTDATA"] []

def c10Tree1 : XTree :=
  .node "sec" [] none none
    (.node "obj" [("chartIDRef", "chart1")] none none .nil
      (.node "obj" [("chartIDRef", "chart2")] none none .nil .nil)) .nil

def c10Tree2 : XTree :=
  xleaf "pic" [("chartIDRef", "chart1")] none none

/-- A writer instance exercising the DEFAULT mimetype of `HwpxWriter`. -/
def ce3W : HwpxWriter :=
  { version_xml := "<v/>", container_xml := "<c/>", manifest_xml := "<m/>",
    content_hpf := "<h/>", files := [] }

/-! ## Statement-level helper definitions -/

def keysA {α : Type} (l : List (String × α)) : List String := l.map Prod.fst

/-- Entry `n` exists in the archive. -/
def presentB (a : Archive) (n : String) : Bool := (entryData a n).isSome

/-- Entry `n`'s bytes are well-formed XML. -/
def wfB (a : Archive) (n : String) : Bool := (lookupA a.docs n).isSome

/-- The content-package path the reader will follow: `_parse_container`
applied to the container document (or to nothing when the entry is
absent). -/
def pkgPathOf (a : Archive) : Option String :=
  (parse_container
    (if presentB a "META-INF/container.xml" then
       lookupA a.docs "META-INF/container.xml"
     else none)).1

/-- The manifest items the reader will walk for descriptor path `p`. -/
def itemsOf (a : Archive) (p : String) : List ManifestItem :=
  parse_content_manifest (if presentB a p then lookupA a.docs p else none)

/-- The chart map accumulated over a list of parsed content trees in
order (the successive `_extract_charts` calls of `HWPXReader.read`). -/
def chartsOfTrees (a : Archive) (ts : List XTree) (cs0 : List (String × String)) :
    List (String × String) :=
  ts.foldl (fun cs t => extract_charts a t cs) cs0

/-- `wPkg` edited so that the section part (and only it) is modified. -/
def w2Pkg : HWPXFile := modify_package_texts wPkg (fun _ => "X")

def w2Out : Archive :=
  (save_modified_hwpx_compatible w2Pkg wA).getD (Archive.mk [] [])

/-! # Lemmas

Generic association-list lemmas (Python `dict` behaviour). -/

theorem lookupA_setA_self {α : Type} (l : List (String × α)) (k : String) (v : α) :
    lookupA (setA l k v) k = some v := by
  induction l with
  | nil => simp [setA, lookupA]
  | cons p ps ih =>
    by_cases h : p.1 = k
    · simp [setA, h, lookupA]
    · simp [setA, h, lookupA, ih]

theorem lookupA_setA_ne {α : Type} (l : List (String × α)) (k k' : String) (v : α)
    (h : k' ≠ k) : lookupA (setA l k v) k' = lookupA l k' := by
  induction l with
  | nil => simp [setA, lookupA, Ne.symm h]
  | cons p ps ih =>
    by_cases hp : p.1 = k
    · simp [setA, hp, lookupA, Ne.symm h]
    · simp [setA, hp, lookupA, ih]

theorem setA_eq_of_lookup {α : Type} (l : List (String × α)) (k : String) (v : α)
    (h : lookupA l k = some v) : setA l k v = l := by
  induction l with
  | nil => simp [lookupA] at h
  | cons p ps ih =>
    obtain ⟨pk, pv⟩ := p
    by_cases hp : pk = k
    · subst hp
      simp [lookupA] at h
      simp [setA, h]
    · simp [lookupA, hp] at h
      simp [setA, hp, ih h]

theorem setA_absent {α : Type} (l : List (String × α)) (k : String) (v : α)
    (h : lookupA l k = none) : setA l k v = l ++ [(k, v)] := by
  induction l with
  | nil => simp [setA]
  | cons p ps ih =>
    by_cases hp : p.1 = k
    · simp [lookupA, hp] at h
    · simp [lookupA, hp] at h
      simp [setA, hp, ih h]

theorem lookupA_append {α : Type} (l1 l2 : List (String × α)) (k : String) :
    lookupA (l1 ++ l2) k =
      match lookupA l1 k with
      | some v => some v
      | none => lookupA l2 k := by
  induction l1 with
  | nil => simp [lookupA]
  | cons p ps ih =>
    by_cases hp : p.1 = k
    · simp [lookupA, hp]
    · simp [lookupA, hp, ih]

theorem lookupA_isSome_setA {α : Type} (l : List (String × α)) (k k' : String) (v : α)
    (h : (lookupA l k').isSome) : (lookupA (setA l k v) k').isSome := by
  by_cases hk : k' = k
  · subst hk; simp [lookupA_setA_self]
  · rwa [lookupA_setA_ne _ _ _ _ hk]

theorem mem_setA {α : Type} (l : List (String × α)) (k : String) (v : α)
    (nt : String × α) (h : nt ∈ setA l k v) : nt ∈ l ∨ nt = (k, v) := by
  induction l with
  | nil => simp [setA] at h; simp [h]
  | cons p ps ih =>
    by_cases hp : p.1 = k
    · simp [setA, hp] at h
      rcases h with h | h
      · right; exact h
      · left; simp [h]
    · simp [setA, hp] at h
      rcases h with h | h
      · left; simp [h]
      · rcases ih h with h' | h'
        · left; simp [h']
        · right; exact h'

theorem lookupA_none_iff {α : Type} (l : List (String × α)) (k : String) :
    lookupA l k = none ↔ k ∉ keysA l := by
  induction l with
  | nil => simp [lookupA, keysA]
  | cons p ps ih =>
    by_cases hp : p.1 = k
    · simp [lookupA, hp, keysA]
    · simp [lookupA, hp, keysA, ih, Ne.symm hp]

theorem keysA_setA_mem {α : Type} (l : List (String × α)) (k : String) (v : α)
    (h : memA l k = true) : keysA (setA l k v) = keysA l := by
  induction l with
  | nil => simp [memA, lookupA] at h
  | cons p ps ih =>
    by_cases hp : p.1 = k
    · simp [setA, hp, keysA]
    · have h' : memA ps k = true := by simpa [memA, lookupA, hp] using h
      simp only [setA, hp, if_false, keysA, List.map_cons]
      have := ih h'
      simp only [keysA] at this
      rw [this]

theorem keysA_setA_notmem {α : Type} (l : List (String × α)) (k : String) (v : α)
    (h : memA l k = false) : keysA (setA l k v) = keysA l ++ [k] := by
  simp only [memA] at h
  have hn : lookupA l k = none := by
    cases hl : lookupA l k with
    | none => rfl
    | some v' => rw [hl] at h; simp at h
  rw [setA_absent _ _ _ hn]
  simp [keysA]

theorem nodup_keysA_setA {α : Type} (l : List (String × α)) (k : String) (v : α)
    (h : (keysA l).Nodup) : (keysA (setA l k v)).Nodup := by
  cases hm : memA l k with
  | true => rw [keysA_setA_mem _ _ _ hm]; exact h
  | false =>
    rw [keysA_setA_notmem _ _ _ hm]
    have hn : lookupA l k = none := by
      simp only [memA] at hm
      cases hl : lookupA l k with
      | none => rfl
      | some v' => rw [hl] at hm; simp at hm
    have hk : k ∉ keysA l := (lookupA_none_iff _ _).mp hn
    simp [List.nodup_append, h, hk]

theorem lookupA_eraseA_ne {α : Type} (l : List (String × α)) (k k' : String)
    (h : k' ≠ k) : lookupA (eraseA l k) k' = lookupA l k' := by
  induction l with
  | nil => simp [eraseA, lookupA]
  | cons p ps ih =>
    by_cases hp : p.1 = k
    · simp [eraseA, hp, lookupA, ih, Ne.symm h]
    · simp [eraseA, hp, lookupA, ih]

theorem eraseA_append {α : Type} (l1 l2 : List (String × α)) (k : String) :
    eraseA (l1 ++ l2) k = eraseA l1 k ++ eraseA l2 k := by
  induction l1 with
  | nil => simp [eraseA]
  | cons p ps ih =>
    by_cases hp : p.1 = k
    · simp [eraseA, hp, ih]
    · simp [eraseA, hp, ih]

theorem eraseA_of_not_mem {α : Type} (l : List (String × α)) (k : String)
    (h : k ∉ keysA l) : eraseA l k = l := by
  induction l with
  | nil => simp [eraseA]
  | cons p ps ih =>
    simp [keysA] at h
    have hp : p.1 ≠ k := fun hh => h.1 hh.symm
    have hps : k ∉ keysA ps := by
      simp [keysA]
      intro x hx
      exact h.2 x hx
    simp [eraseA, hp, ih hps]

theorem foldl_setA_of_nodup {α : Type} (ps : List (String × α)) (acc : List (String × α))
    (hnd : (keysA ps).Nodup) (hdisj : ∀ k ∈ keysA ps, lookupA acc k = none) :
    ps.foldl (fun m p => setA m p.1 p.2) acc = acc ++ ps := by
  induction ps generalizing acc with
  | nil => simp
  | cons p ps ih =>
    obtain ⟨k, v⟩ := p
    simp only [List.foldl_cons]
    rw [setA_absent _ _ _ (hdisj k (by simp [keysA]))]
    have hnd' : (keysA ps).Nodup := by
      simpa [keysA] using hnd.of_cons
    have hk : k ∉ keysA ps := by
      have := hnd
      simp [keysA] at this
      intro hmem
      simp [keysA] at hmem
      rcases hmem with ⟨v', hv'⟩
      exact this.1 v' hv'
    have hdisj' : ∀ k' ∈ keysA ps, lookupA (acc ++ [(k, v)]) k' = none := by
      intro k' hk'
      rw [lookupA_append]
      rw [hdisj k' (by simp [keysA]; right; simpa [keysA] using hk')]
      have : k ≠ k' := fun hh => hk (hh ▸ hk')
      simp [lookupA, this]
    rw [ih (acc ++ [(k, v)]) hnd' hdisj']
    simp

theorem foldl_setA_map {α β : Type} (l : List β) (key : β → String) (val : β → α)
    (h : (l.map key).Nodup) :
    l.foldl (fun m x => setA m (key x) (val x)) [] = l.map (fun x => (key x, val x)) := by
  have h2 : l.foldl (fun m x => setA m (key x) (val x)) [] =
      (l.map (fun x => (key x, val x))).foldl (fun m p => setA m p.1 p.2) [] := by
    rw [List.foldl_map]
  rw [h2, foldl_setA_of_nodup]
  · simp
  · simpa [keysA, List.map_map, Function.comp] using h
  · intro k _; simp [lookupA]

theorem lookupA_map_of_nodup {α β : Type} (l : List β) (key : β → String) (val : β → α)
    (h : (l.map key).Nodup) (x : β) (hx : x ∈ l) :
    lookupA (l.map (fun y => (key y, val y))) (key x) = some (val x) := by
  induction l with
  | nil => simp at hx
  | cons y ys ih =>
    by_cases hk : key y = key x
    · have hxy : x = y := by
        rcases List.mem_cons.mp hx with h' | h'
        · exact h'
        · exfalso
          have : key y ∉ ys.map key := by simpa using (List.nodup_cons.mp h).1
          exact this (hk ▸ List.mem_map_of_mem key h')
      subst hxy
      simp [lookupA, hk]
    · have hx' : x ∈ ys := by
        rcases List.mem_cons.mp hx with h' | h'
        · exact absurd (congrArg key h'.symm) hk
        · exact h'
      simp only [List.map_cons, lookupA, hk, if_false]
      exact ih (List.nodup_cons.mp h).2 hx'

theorem find?_entry_map (l : List (String × String)) (g : String → Nat) (n : String) :
    (l.map (fun nd => ZEntry.mk nd.1 (g nd.1) nd.2)).find? (fun e => e.name = n) =
      (lookupA l n).map (fun v => ZEntry.mk n (g n) v) := by
  induction l with
  | nil => simp [lookupA]
  | cons p ps ih =>
    by_cases hp : p.1 = n
    · simp [List.find?, lookupA, hp]
    · simp only [List.map_cons, List.find?_cons, lookupA, hp, if_false]
      simpa using ih

theorem except_bind_ok {ε α β : Type} (x : Except ε α) (f : α → Except ε β) (b : β)
    (h : (x >>= f) = .ok b) : ∃ a, x = .ok a ∧ f a = .ok b := by
  cases x with
  | ok a => exact ⟨a, rfl, by simpa [Bind.bind, Except.bind] using h⟩
  | error e => simp [Bind.bind, Except.bind] at h

theorem option_bind_some {α β : Type} (x : Option α) (f : α → Option β) (b : β)
    (h : x.bind f = some b) : ∃ a, x = some a ∧ f a = some b := by
  cases x with
  | some a => exact ⟨a, rfl, by simpa using h⟩
  | none => simp at h

theorem foldlM_except_invariant {ε σ β : Type} (P : σ → Prop) (l : List β)
    (step : σ → β → Except ε σ) (s0 sN : σ) (h : l.foldlM step s0 = .ok sN)
    (h0 : P s0)
    (hstep : ∀ s x s', x ∈ l → P s → step s x = .ok s' → P s') : P sN := by
  induction l generalizing s0 with
  | nil =>
    simp only [List.foldlM, pure, Except.pure, Except.ok.injEq] at h
    exact h ▸ h0
  | cons x xs ih =>
    rw [List.foldlM_cons] at h
    obtain ⟨s1, hs1, hrest⟩ := except_bind_ok _ _ _ h
    exact ih s1 hrest (hstep s0 x s1 (by simp) h0 hs1)
      (fun s y s' hy => hstep s y s' (by simp [hy]))

/-! Reader characterization lemmas. -/

theorem read_xml_ok_val (a : Archive) (n : String) (o : Option XTree)
    (h : read_xml a n = .ok o) :
    o = (if presentB a n = true then lookupA a.docs n else none) := by
  unfold read_xml at h
  cases hd : entryData a n with
  | none => rw [hd] at h; simp at h; simp [presentB, hd, ← h]
  | some d =>
    rw [hd] at h
    cases hdoc : lookupA a.docs n with
    | none => rw [hdoc] at h; simp at h
    | some t => rw [hdoc] at h; simp at h; simp [presentB, hd, hdoc, ← h]

theorem read_xml_ok_some_present (a : Archive) (n : String) (t : XTree)
    (h : read_xml a n = .ok (some t)) :
    (entryData a n).isSome ∧ lookupA a.docs n = some t := by
  unfold read_xml at h
  cases hd : entryData a n with
  | none => rw [hd] at h; simp at h
  | some d =>
    rw [hd] at h
    cases hdoc : lookupA a.docs n with
    | none => rw [hdoc] at h; simp at h
    | some t' => rw [hdoc] at h; simp at h; simp [h]

theorem read_xml_ok_present_some (a : Archive) (n : String) (o : Option XTree)
    (h : read_xml a n = .ok o) (hp : presentB a n = true) : o.isSome := by
  rw [read_xml_ok_val a n o h, if_pos hp]
  unfold read_xml at h
  simp only [presentB] at hp
  cases hd : entryData a n with
  | none => rw [hd] at hp; simp at hp
  | some d =>
    rw [hd] at h
    cases hdoc : lookupA a.docs n with
    | none => rw [hdoc] at h; simp at h
    | some t => simp [hdoc]

/-- Everything one readItemStep preserves or guarantees. -/
theorem readItemStep_props (a : Archive) (s s' : HWPXFile) (item : ManifestItem)
    (h : readItemStep a s item = .ok s') :
    s'.all_files = s.all_files ∧ s'.modified_files = s.modified_files ∧
    s'.version_xml = s.version_xml ∧ s'.container_xml = s.container_xml ∧
    s'.manifest_xml = s.manifest_xml ∧ s'.content_hpf = s.content_hpf ∧
    (∀ n, (lookupA s.original_xml_strings n).isSome →
      (lookupA s'.original_xml_strings n).isSome) ∧
    ((∀ n, lookupA s.original_xml_strings n = none ∨
        lookupA s.original_xml_strings n = entryData a n) →
      ∀ n, lookupA s'.original_xml_strings n = none ∨
        lookupA s'.original_xml_strings n = entryData a n) ∧
    (∀ nt, nt ∈ s'.content_files → nt ∈ s.content_files ∨
      (nt.1 = item.href ∧ (entryData a nt.1).isSome ∧
        lookupA s'.original_xml_strings nt.1 = entryData a nt.1)) ∧
    ((keysA s.content_files).Nodup → (keysA s'.content_files).Nodup) ∧
    (∀ n, (lookupA s.content_files n).isSome → (lookupA s'.content_files n).isSome) := by
  unfold readItemStep at h
  by_cases hm : item.media_type = "application/xml"
  · rw [if_pos hm] at h
    obtain ⟨tree?, ht, h⟩ := except_bind_ok _ _ _ h
    cases tree? with
    | none =>
      simp only [pure, Except.pure, Except.ok.injEq] at h
      subst h
      refine ⟨rfl, rfl, rfl, rfl, rfl, rfl, fun n hn => hn, fun hh => hh,
        fun nt hnt => Or.inl hnt, fun hh => hh, fun n hn => hn⟩
    | some tree =>
      obtain ⟨hpres, hdoc⟩ := read_xml_ok_some_present a item.href tree ht
      obtain ⟨d, hd⟩ := Option.isSome_iff_exists.mp hpres
      rw [hd] at h
      simp only [pure, Except.pure, Except.ok.injEq] at h
      subst h
      refine ⟨rfl, rfl, rfl, rfl, rfl, rfl, ?_, ?_, ?_, ?_, ?_⟩
      · intro n hn
        exact lookupA_isSome_setA _ _ _ _ hn
      · intro hagree n
        by_cases hn : n = item.href
        · subst hn
          right
          simp [lookupA_setA_self, hd]
        · rw [lookupA_setA_ne _ _ _ _ hn]
          exact hagree n
      · intro nt hnt
        rcases mem_setA _ _ _ _ hnt with h' | h'
        · exact Or.inl h'
        · right
          subst h'
          simp [lookupA_setA_self, hd]
      · intro hnd
        exact nodup_keysA_setA _ _ _ hnd
      · intro n hn
        exact lookupA_isSome_setA _ _ _ _ hn
  · rw [if_neg hm] at h
    cases hd : entryData a item.href with
    | none =>
      rw [hd] at h
      simp only [pure, Except.pure, Except.ok.injEq] at h
      subst h
      exact ⟨rfl, rfl, rfl, rfl, rfl, rfl, fun n hn => hn, fun hh => hh,
        fun nt hnt => Or.inl hnt, fun hh => hh, fun n hn => hn⟩
    | some d =>
      rw [hd] at h
      simp only [pure, Except.pure, Except.ok.injEq] at h
      subst h
      exact ⟨rfl, rfl, rfl, rfl, rfl, rfl, fun n hn => hn, fun hh => hh,
        fun nt hnt => Or.inl hnt, fun hh => hh, fun n hn => hn⟩

/-- Invariants of the manifest-item loop of `HWPXReader.read`. -/
theorem readFold_props (a : Archive) (items : List ManifestItem)
    (st1 stN : HWPXFile) (h : items.foldlM (readItemStep a) st1 = .ok stN) :
    stN.all_files = st1.all_files ∧ stN.modified_files = st1.modified_files ∧
    stN.version_xml = st1.version_xml ∧ stN.container_xml = st1.container_xml ∧
    stN.manifest_xml = st1.manifest_xml ∧ stN.content_hpf = st1.content_hpf ∧
    (∀ n, (lookupA st1.original_xml_strings n).isSome →
      (lookupA stN.original_xml_strings n).isSome) ∧
    ((∀ n, lookupA st1.original_xml_strings n = none ∨
        lookupA st1.original_xml_strings n = entryData a n) →
      ∀ n, lookupA stN.original_xml_strings n = none ∨
        lookupA stN.original_xml_strings n = entryData a n) ∧
    (((∀ nt, nt ∈ st1.content_files → (entryData a nt.1).isSome ∧
        (lookupA st1.original_xml_strings nt.1).isSome) ∧
      (∀ n, lookupA st1.original_xml_strings n = none ∨
        lookupA st1.original_xml_strings n = entryData a n)) →
      ∀ nt, nt ∈ stN.content_files → (entryData a nt.1).isSome ∧
        lookupA stN.original_xml_strings nt.1 = entryData a nt.1) ∧
    ((keysA st1.content_files).Nodup → (keysA stN.content_files).Nodup) := by
  induction items generalizing st1 with
  | nil =>
    simp only [List.foldlM, pure, Except.pure, Except.ok.injEq] at h
    subst h
    refine ⟨rfl, rfl, rfl, rfl, rfl, rfl, fun n hn => hn, fun hh => hh, ?_, fun hh => hh⟩
    intro ⟨hcont, hagree⟩ nt hnt
    obtain ⟨h1, h2⟩ := hcont nt hnt
    refine ⟨h1, ?_⟩
    rcases hagree nt.1 with h' | h'
    · rw [h'] at h2; simp at h2
    · exact h'
  | cons item rest ih =>
    rw [List.foldlM_cons] at h
    obtain ⟨s1, hs1, hrest⟩ := except_bind_ok _ _ _ h
    obtain ⟨haf, hmf, hv, hc, hm, hh, hmono, hagree, hcontm, hnd, hcsome⟩ :=
      readItemStep_props a st1 s1 item hs1
    obtain ⟨haf', hmf', hv', hc', hm', hh', hmono', hagree', hcontm', hnd'⟩ :=
      ih s1 hrest
    refine ⟨haf'.trans haf, hmf'.trans hmf, hv'.trans hv, hc'.trans hc,
      hm'.trans hm, hh'.trans hh, ?_, ?_, ?_, fun hn => hnd' (hnd hn)⟩
    · intro n hn
      exact hmono' n (hmono n hn)
    · intro hag n
      exact hagree' (hagree hag) n
    · intro ⟨hcont, hag⟩
      refine hcontm' ⟨?_, hagree hag⟩
      intro nt hnt
      rcases hcontm nt hnt with h' | h'
      · obtain ⟨h1, h2⟩ := hcont nt h'
        exact ⟨h1, hmono nt.1 h2⟩
      · obtain ⟨_, h1, h2⟩ := h'
        refine ⟨h1, ?_⟩
        rw [h2]
        exact h1

theorem captureIf_agree (a : Archive) (orig : List (String × String)) (name : String)
    (t : Option XTree)
    (h : ∀ n, lookupA orig n = none ∨ lookupA orig n = entryData a n) :
    ∀ n, lookupA (captureIf a orig name t) n = none ∨
      lookupA (captureIf a orig name t) n = entryData a n := by
  intro n
  unfold captureIf
  cases t with
  | none => exact h n
  | some tree =>
    cases hd : entryData a name with
    | none => exact h n
    | some d =>
      by_cases hn : n = name
      · subst hn
        right
        rw [lookupA_setA_self, hd]
      · rw [lookupA_setA_ne _ _ _ _ hn]
        exact h n

theorem captureIf_mono (a : Archive) (orig : List (String × String)) (name n : String)
    (t : Option XTree) (h : (lookupA orig n).isSome) :
    (lookupA (captureIf a orig name t) n).isSome := by
  unfold captureIf
  cases t with
  | none => exact h
  | some tree =>
    cases hd : entryData a name with
    | none => exact h
    | some d => exact lookupA_isSome_setA _ _ _ _ h

theorem captureIf_self (a : Archive) (orig : List (String × String)) (name : String)
    (tree : XTree) (hp : presentB a name = true) :
    (lookupA (captureIf a orig name (some tree)) name).isSome := by
  unfold captureIf
  simp only [presentB] at hp
  obtain ⟨d, hd⟩ := Option.isSome_iff_exists.mp hp
  rw [hd]
  simp [lookupA_setA_self]

/-- Everything a successful `HWPXReader.read` guarantees about the
resulting package. -/
theorem read_ok_props (a : Archive) (hwpx : HWPXFile)
    (h : HWPXReader.read a = .ok hwpx) :
    hwpx.all_files = a.entries.foldl (fun m e => setA m e.name e.data) [] ∧
    hwpx.modified_files = [] ∧
    (∀ n, lookupA hwpx.original_xml_strings n = none ∨
      lookupA hwpx.original_xml_strings n = entryData a n) ∧
    (∀ nt, nt ∈ hwpx.content_files → (entryData a nt.1).isSome ∧
      lookupA hwpx.original_xml_strings nt.1 = entryData a nt.1) ∧
    (keysA hwpx.content_files).Nodup ∧
    hwpx.version_xml = (if presentB a "version.xml" = true then
      lookupA a.docs "version.xml" else none) ∧
    hwpx.container_xml = (if presentB a "META-INF/container.xml" = true then
      lookupA a.docs "META-INF/container.xml" else none) ∧
    hwpx.manifest_xml = (if presentB a "META-INF/manifest.xml" = true then
      lookupA a.docs "META-INF/manifest.xml" else none) ∧
    (presentB a "version.xml" = true →
      lookupA hwpx.original_xml_strings "version.xml" = entryData a "version.xml") ∧
    (presentB a "META-INF/container.xml" = true →
      lookupA hwpx.original_xml_strings "META-INF/container.xml" =
        entryData a "META-INF/container.xml") ∧
    (presentB a "META-INF/manifest.xml" = true →
      lookupA hwpx.original_xml_strings "META-INF/manifest.xml" =
        entryData a "META-INF/manifest.xml") ∧
    (∀ p, pkgPathOf a = some p →
      hwpx.content_hpf = (if presentB a p = true then lookupA a.docs p else none) ∧
      (presentB a p = true →
        lookupA hwpx.original_xml_strings p = entryData a p)) ∧
    (pkgPathOf a = none → hwpx.content_files = []) := by
  unfold HWPXReader.read at h
  obtain ⟨u, hu, h⟩ := except_bind_ok _ _ _ h
  obtain ⟨version, hver, h⟩ := except_bind_ok _ _ _ h
  obtain ⟨container, hcon, h⟩ := except_bind_ok _ _ _ h
  obtain ⟨manifest, hman, h⟩ := except_bind_ok _ _ _ h
  dsimp only at h
  have hverval := read_xml_ok_val a "version.xml" version hver
  have hconval := read_xml_ok_val a "META-INF/container.xml" container hcon
  have hmanval := read_xml_ok_val a "META-INF/manifest.xml" manifest hman
  have hpkg : (parse_container container).1 = pkgPathOf a := by
    rw [pkgPathOf, ← hconval]
  have horig0 : ∀ n,
      lookupA (captureIf a (captureIf a (captureIf a [] "version.xml" version)
        "META-INF/container.xml" container) "META-INF/manifest.xml" manifest) n = none ∨
      lookupA (captureIf a (captureIf a (captureIf a [] "version.xml" version)
        "META-INF/container.xml" container) "META-INF/manifest.xml" manifest) n =
        entryData a n := by
    apply captureIf_agree
    apply captureIf_agree
    apply captureIf_agree
    intro n
    left
    simp [lookupA]
  have hver0 : presentB a "version.xml" = true →
      (lookupA (captureIf a (captureIf a (captureIf a [] "version.xml" version)
        "META-INF/container.xml" container) "META-INF/manifest.xml" manifest)
        "version.xml").isSome := by
    intro hp
    obtain ⟨t, ht⟩ := Option.isSome_iff_exists.mp
      (read_xml_ok_present_some a "version.xml" version hver hp)
    apply captureIf_mono
    apply captureIf_mono
    rw [ht]
    exact captureIf_self a [] "version.xml" t hp
  have hcon0 : presentB a "META-INF/container.xml" = true →
      (lookupA (captureIf a (captureIf a (captureIf a [] "version.xml" version)
        "META-INF/container.xml" container) "META-INF/manifest.xml" manifest)
        "META-INF/container.xml").isSome := by
    intro hp
    obtain ⟨t, ht⟩ := Option.isSome_iff_exists.mp
      (read_xml_ok_present_some a "META-INF/container.xml" container hcon hp)
    apply captureIf_mono
    rw [ht]
    exact captureIf_self a _ "META-INF/container.xml" t hp
  have hman0 : presentB a "META-INF/manifest.xml" = true →
      (lookupA (captureIf a (captureIf a (captureIf a [] "version.xml" version)
        "META-INF/container.xml" container) "META-INF/manifest.xml" manifest)
        "META-INF/manifest.xml").isSome := by
    intro hp
    obtain ⟨t, ht⟩ := Option.isSome_iff_exists.mp
      (read_xml_ok_present_some a "META-INF/manifest.xml" manifest hman hp)
    rw [ht]
    exact captureIf_self a _ "META-INF/manifest.xml" t hp
  cases hpc : (parse_container container).1 with
  | none =>
    rw [hpc] at h
    simp only [pure, Except.pure, Except.ok.injEq] at h
    subst h
    rw [hpc] at hpkg
    refine ⟨rfl, rfl, horig0, by simp, by simp [keysA], hverval, hconval, hmanval,
      ?_, ?_, ?_, ?_, fun _ => rfl⟩
    · intro hp
      rcases horig0 "version.xml" with h' | h'
      · have := hver0 hp
        rw [h'] at this
        simp at this
      · exact h'
    · intro hp
      rcases horig0 "META-INF/container.xml" with h' | h'
      · have := hcon0 hp
        rw [h'] at this
        simp at this
      · exact h'
    · intro hp
      rcases horig0 "META-INF/manifest.xml" with h' | h'
      · have := hman0 hp
        rw [h'] at this
        simp at this
      · exact h'
    · intro p hp
      rw [← hpkg] at hp
      simp at hp
  | some p =>
    rw [hpc] at h
    obtain ⟨hpf, hhpf, h⟩ := except_bind_ok _ _ _ h
    have hhpfval := read_xml_ok_val a p hpf hhpf
    obtain ⟨haf, hmf, hv, hc, hm, hh, hmono, hagree, hcontm, hnd⟩ :=
      readFold_props a _ _ _ h
    have horig1 : ∀ n,
        lookupA (HWPXFile.original_xml_strings hwpx) n = none ∨
        lookupA (HWPXFile.original_xml_strings hwpx) n = entryData a n := by
      apply hagree
      exact captureIf_agree a _ p hpf horig0
    refine ⟨haf, hmf, horig1, ?_, ?_, ?_, ?_, ?_, ?_, ?_, ?_, ?_, ?_⟩
    · apply hcontm
      constructor
      · intro nt hnt
        simp at hnt
      · exact captureIf_agree a _ p hpf horig0
    · apply hnd
      simp [keysA]
    · rw [hv]; exact hverval
    · rw [hc]; exact hconval
    · rw [hm]; exact hmanval
    · intro hp
      rcases horig1 "version.xml" with h' | h'
      · have := hmono "version.xml" (captureIf_mono a _ p "version.xml" hpf (hver0 hp))
        rw [h'] at this
        simp at this
      · exact h'
    · intro hp
      rcases horig1 "META-INF/container.xml" with h' | h'
      · have := hmono _ (captureIf_mono a _ p _ hpf (hcon0 hp))
        rw [h'] at this
        simp at this
      · exact h'
    · intro hp
      rcases horig1 "META-INF/manifest.xml" with h' | h'
      · have := hmono _ (captureIf_mono a _ p _ hpf (hman0 hp))
        rw [h'] at this
        simp at this
      · exact h'
    · intro p' hp'
      rw [← hpkg] at hp'
      rw [hpc] at hp'
      simp at hp'
      subst hp'
      constructor
      · rw [hh]
        exact hhpfval
      · intro hpres
        rcases horig1 p with h' | h'
        · obtain ⟨t, ht⟩ := Option.isSome_iff_exists.mp
            (read_xml_ok_present_some a p hpf hhpf hpres)
          have := hmono p (by rw [ht]; exact captureIf_self a _ p t hpres)
          rw [h'] at this
          simp at this
        · exact h'
    · intro hnone
      rw [← hpkg, hpc] at hnone
      simp at hnone

/-! Writer characterization lemmas. -/

theorem foldl_compatFileStep_id (hwpx : HWPXFile) (l : List (String × XTree))
    (fs : List (String × String)) (hmod : hwpx.modified_files = [])
    (hcond : ∀ nt ∈ l, ∃ v, lookupA hwpx.original_xml_strings nt.1 = some v ∧
      lookupA fs nt.1 = some v) :
    l.foldl (compatFileStep hwpx) fs = fs := by
  induction l with
  | nil => rfl
  | cons nt l ih =>
    obtain ⟨v, hov, hfv⟩ := hcond nt (by simp)
    have hstep : compatFileStep hwpx fs nt = fs := by
      unfold compatFileStep compatValue
      rw [hmod]
      simp only [List.not_mem_nil, decide_False, Bool.not_false, Bool.and_true]
      rw [if_pos (by simp [memA, hov])]
      rw [show getDA hwpx.original_xml_strings nt.1 "" = v by simp [getDA, hov]]
      exact setA_eq_of_lookup _ _ _ hfv
    rw [List.foldl_cons, hstep]
    exact ih (fun nt' h' => hcond nt' (by simp [h']))

theorem foldl_setA_g_lookup_not_mem {α β : Type} (l : List β) (key : β → String)
    (g : β → α) (fs : List (String × α)) (n : String) (h : n ∉ l.map key) :
    lookupA (l.foldl (fun fs x => setA fs (key x) (g x)) fs) n = lookupA fs n := by
  induction l generalizing fs with
  | nil => rfl
  | cons x xs ih =>
    simp only [List.map_cons, List.mem_cons] at h
    push_neg at h
    rw [List.foldl_cons, ih _ h.2, lookupA_setA_ne _ _ _ _ h.1]

theorem foldl_setA_g_lookup_mem {α β : Type} (l : List β) (key : β → String)
    (g : β → α) (x : β) :
    ∀ fs : List (String × α), (l.map key).Nodup → x ∈ l →
      lookupA (l.foldl (fun fs y => setA fs (key y) (g y)) fs) (key x) = some (g x) := by
  induction l with
  | nil => intro fs _ hx; simp at hx
  | cons y ys ih =>
    intro fs hnd hx
    rw [List.map_cons] at hnd
    have hnd2 := List.nodup_cons.mp hnd
    rw [List.foldl_cons]
    rcases List.mem_cons.mp hx with h' | h'
    · subst h'
      rw [foldl_setA_g_lookup_not_mem _ _ _ _ _ hnd2.1, lookupA_setA_self]
    · exact ih _ hnd2.2 h'

theorem compatFileStep_eq (hwpx : HWPXFile) :
    compatFileStep hwpx = fun fs nt => setA fs nt.1 (compatValue hwpx nt) := rfl

/-- Destructuring a successful compatible-writer run. -/
theorem save_ok_shape (hwpx : HWPXFile) (original : Archive) (out : Archive)
    (h : save_modified_hwpx_compatible hwpx original = some out) :
    ∃ v1 v2 v3 v4,
      coreSrc hwpx "version.xml" hwpx.version_xml = some v1 ∧
      coreSrc hwpx "META-INF/container.xml" hwpx.container_xml = some v2 ∧
      coreSrc hwpx "META-INF/manifest.xml" hwpx.manifest_xml = some v3 ∧
      coreSrc hwpx "Contents/content.hpf" hwpx.content_hpf = some v4 ∧
      out.entries =
        ZEntry.mk "mimetype" ZIP_STORED "application/hwp+zip" ::
        ZEntry.mk "version.xml"
          (getDA (extract_compression_info original) "version.xml" ZIP_DEFLATED) v1 ::
        ZEntry.mk "META-INF/container.xml"
          (getDA (extract_compression_info original) "META-INF/container.xml" ZIP_DEFLATED) v2 ::
        ZEntry.mk "META-INF/manifest.xml"
          (getDA (extract_compression_info original) "META-INF/manifest.xml" ZIP_DEFLATED) v3 ::
        ZEntry.mk "Contents/content.hpf"
          (getDA (extract_compression_info original) "Contents/content.hpf" ZIP_DEFLATED) v4 ::
        (eraseA (eraseA (eraseA (eraseA (eraseA
            (hwpx.content_files.foldl (compatFileStep hwpx)
              (setA (setA (setA (setA hwpx.all_files "version.xml" v1)
                "META-INF/container.xml" v2) "META-INF/manifest.xml" v3)
                "Contents/content.hpf" v4))
            "version.xml") "META-INF/container.xml") "META-INF/manifest.xml")
            "Contents/content.hpf") "mimetype").map
          (fun nd => ZEntry.mk nd.1
            (getDA (extract_compression_info original) nd.1 ZIP_DEFLATED) nd.2) := by
  unfold save_modified_hwpx_compatible at h
  obtain ⟨v1, h1, h⟩ := option_bind_some _ _ _ h
  obtain ⟨v2, h2, h⟩ := option_bind_some _ _ _ h
  obtain ⟨v3, h3, h⟩ := option_bind_some _ _ _ h
  obtain ⟨v4, h4, h⟩ := option_bind_some _ _ _ h
  refine ⟨v1, v2, v3, v4, h1, h2, h3, h4, ?_⟩
  simp only [pure, Option.some.injEq] at h
  rw [← h]

set_option maxHeartbeats 2000000 in
/-- **C1** (amended). For an archive that parses successfully, whose entry
order is already canonical — `mimetype` first (stored, with content
exactly the content-type string), then the four structural parts in the
writer's fixed order, then the remaining entries — and whose container
points the reader at `Contents/content.hpf`, writing the un-edited parsed
package back out reproduces the archive byte-for-byte: identical entry
names, contents, compression methods, and order.  (As stated, the claim
is false: the writer imposes this canonical order and normalizes the
`mimetype` entry, so archives in any other order are reordered — see the
counterexample.) -/
theorem claim1_roundtrip (a : Archive) (hwpx : HWPXFile) (out : Archive)
    (e0 e1 e2 e3 e4 : ZEntry) (rest : List ZEntry)
    (hsh : a.entries = e0 :: e1 :: e2 :: e3 :: e4 :: rest)
    (he0 : e0 = ZEntry.mk "mimetype" ZIP_STORED MIMETYPE)
    (he1 : e1.name = "version.xml")
    (he2 : e2.name = "META-INF/container.xml")
    (he3 : e3.name = "META-INF/manifest.xml")
    (he4 : e4.name = "Contents/content.hpf")
    (hnd : (a.entries.map ZEntry.name).Nodup)
    (hpath : pkgPathOf a = some "Contents/content.hpf")
    (hread : HWPXReader.read a = .ok hwpx)
    (hsave : save_modified_hwpx_compatible hwpx a = some out) :
    out.entries = a.entries := by
  obtain ⟨hAF, hMF, hAgree, hContent, hCNodup, hVer, hCon, hMan, hOV, hOC, hOM,
    hHPF, _⟩ := read_ok_props a hwpx hread
  have hpairs : a.entries.foldl (fun m e => setA m e.name e.data) [] =
      a.entries.map (fun e => (e.name, e.data)) :=
    foldl_setA_map a.entries ZEntry.name ZEntry.data hnd
  have hAF' : hwpx.all_files = a.entries.map (fun e => (e.name, e.data)) :=
    hAF.trans hpairs
  have hLP : ∀ n, lookupA (a.entries.map (fun e => (e.name, e.data))) n =
      entryData a n := by
    intro n
    unfold entryData
    rw [hpairs]
  have hD1 : entryData a "version.xml" = some e1.data := by
    rw [← hLP, hsh]
    simp [lookupA, he0, he1]
  have hD2 : entryData a "META-INF/container.xml" = some e2.data := by
    rw [← hLP, hsh]
    simp [lookupA, he0, he1, he2]
  have hD3 : entryData a "META-INF/manifest.xml" = some e3.data := by
    rw [← hLP, hsh]
    simp [lookupA, he0, he1, he2, he3]
  have hD4 : entryData a "Contents/content.hpf" = some e4.data := by
    rw [← hLP, hsh]
    simp [lookupA, he0, he1, he2, he3, he4]
  have hP1 : presentB a "version.xml" = true := by simp [presentB, hD1]
  have hP2 : presentB a "META-INF/container.xml" = true := by simp [presentB, hD2]
  have hP3 : presentB a "META-INF/manifest.xml" = true := by simp [presentB, hD3]
  have hP4 : presentB a "Contents/content.hpf" = true := by simp [presentB, hD4]
  obtain ⟨v1, v2, v3, v4, hc1, hc2, hc3, hc4, hent⟩ := save_ok_shape hwpx a out hsave
  have hv1 : v1 = e1.data := by
    cases hvx : hwpx.version_xml with
    | none => rw [hvx] at hc1; simp [coreSrc] at hc1
    | some t =>
      rw [hvx] at hc1
      simp only [coreSrc, Option.some.injEq] at hc1
      rw [← hc1, getDA, hOV hP1, hD1]
      rfl
  have hv2 : v2 = e2.data := by
    cases hvx : hwpx.container_xml with
    | none => rw [hvx] at hc2; simp [coreSrc] at hc2
    | some t =>
      rw [hvx] at hc2
      simp only [coreSrc, Option.some.injEq] at hc2
      rw [← hc2, getDA, hOC hP2, hD2]
      rfl
  have hv3 : v3 = e3.data := by
    cases hvx : hwpx.manifest_xml with
    | none => rw [hvx] at hc3; simp [coreSrc] at hc3
    | some t =>
      rw [hvx] at hc3
      simp only [coreSrc, Option.some.injEq] at hc3
      rw [← hc3, getDA, hOM hP3, hD3]
      rfl
  have hOH := (hHPF "Contents/content.hpf" hpath).2 hP4
  have hv4 : v4 = e4.data := by
    cases hvx : hwpx.content_hpf with
    | none => rw [hvx] at hc4; simp [coreSrc] at hc4
    | some t =>
      rw [hvx] at hc4
      simp only [coreSrc, Option.some.injEq] at hc4
      rw [← hc4, getDA, hOH, hD4]
      rfl
  have hs1 : setA (a.entries.map (fun e => (e.name, e.data))) "version.xml" e1.data =
      a.entries.map (fun e => (e.name, e.data)) :=
    setA_eq_of_lookup _ _ _ (by rw [hLP]; exact hD1)
  have hs2 : setA (a.entries.map (fun e => (e.name, e.data)))
      "META-INF/container.xml" e2.data = a.entries.map (fun e => (e.name, e.data)) :=
    setA_eq_of_lookup _ _ _ (by rw [hLP]; exact hD2)
  have hs3 : setA (a.entries.map (fun e => (e.name, e.data)))
      "META-INF/manifest.xml" e3.data = a.entries.map (fun e => (e.name, e.data)) :=
    setA_eq_of_lookup _ _ _ (by rw [hLP]; exact hD3)
  have hs4 : setA (a.entries.map (fun e => (e.name, e.data)))
      "Contents/content.hpf" e4.data = a.entries.map (fun e => (e.name, e.data)) :=
    setA_eq_of_lookup _ _ _ (by rw [hLP]; exact hD4)
  have hfold : hwpx.content_files.foldl (compatFileStep hwpx)
      (a.entries.map (fun e => (e.name, e.data))) =
      a.entries.map (fun e => (e.name, e.data)) := by
    apply foldl_compatFileStep_id hwpx _ _ hMF
    intro nt hnt
    obtain ⟨hsome, horig⟩ := hContent nt hnt
    obtain ⟨d, hd⟩ := Option.isSome_iff_exists.mp hsome
    exact ⟨d, by rw [horig, hd], by rw [hLP, hd]⟩
  rw [hAF', hv1, hv2, hv3, hv4, hs1, hs2, hs3, hs4, hfold] at hent
  have hndsh : (e0.name :: e1.name :: e2.name :: e3.name :: e4.name ::
      rest.map ZEntry.name).Nodup := by
    rw [hsh] at hnd
    simpa using hnd
  have hn0 := (List.nodup_cons.mp hndsh).1
  have hnd1 := (List.nodup_cons.mp hndsh).2
  have hn1 := (List.nodup_cons.mp hnd1).1
  have hnd2 := (List.nodup_cons.mp hnd1).2
  have hn2 := (List.nodup_cons.mp hnd2).1
  have hnd3 := (List.nodup_cons.mp hnd2).2
  have hn3 := (List.nodup_cons.mp hnd3).1
  have hnd4 := (List.nodup_cons.mp hnd3).2
  have hn4 := (List.nodup_cons.mp hnd4).1
  have hkr : keysA (rest.map (fun e => (e.name, e.data))) = rest.map ZEntry.name := by
    simp [keysA, List.map_map, Function.comp]
  have hr0 : "mimetype" ∉ keysA (rest.map (fun e => (e.name, e.data))) := by
    rw [hkr]
    intro hm
    exact hn0 (by rw [he0]; simp [hm])
  have hr1 : "version.xml" ∉ keysA (rest.map (fun e => (e.name, e.data))) := by
    rw [hkr]
    intro hm
    exact hn1 (by rw [he1]; simp [hm])
  have hr2 : "META-INF/container.xml" ∉ keysA (rest.map (fun e => (e.name, e.data))) := by
    rw [hkr]
    intro hm
    exact hn2 (by rw [he2]; simp [hm])
  have hr3 : "META-INF/manifest.xml" ∉ keysA (rest.map (fun e => (e.name, e.data))) := by
    rw [hkr]
    intro hm
    exact hn3 (by rw [he3]; simp [hm])
  have hr4 : "Contents/content.hpf" ∉ keysA (rest.map (fun e => (e.name, e.data))) := by
    rw [hkr]
    intro hm
    exact hn4 (by rw [he4]; simp [hm])
  have herase : eraseA (eraseA (eraseA (eraseA (eraseA
      (a.entries.map (fun e => (e.name, e.data))) "version.xml")
      "META-INF/container.xml") "META-INF/manifest.xml")
      "Contents/content.hpf") "mimetype" = rest.map (fun e => (e.name, e.data)) := by
    rw [hsh]
    simp only [List.map_cons, eraseA, he0, he1, he2, he3, he4]
    simp only [eraseA_of_not_mem _ _ hr1, eraseA_of_not_mem _ _ hr2,
      eraseA_of_not_mem _ _ hr3, eraseA_of_not_mem _ _ hr4,
      eraseA_of_not_mem _ _ hr0]
    simp [eraseA]
    exact eraseA_of_not_mem _ _ hr0
  rw [herase] at hent
  have hCP : extract_compression_info a = a.entries.map (fun e => (e.name, e.compress)) := by
    unfold extract_compression_info
    exact foldl_setA_map a.entries ZEntry.name ZEntry.compress hnd
  have hg1 : getDA (extract_compression_info a) "version.xml" ZIP_DEFLATED = e1.compress := by
    rw [hCP, getDA, hsh]
    simp [lookupA, he0, he1]
  have hg2 : getDA (extract_compression_info a) "META-INF/container.xml" ZIP_DEFLATED =
      e2.compress := by
    rw [hCP, getDA, hsh]
    simp [lookupA, he0, he1, he2]
  have hg3 : getDA (extract_compression_info a) "META-INF/manifest.xml" ZIP_DEFLATED =
      e3.compress := by
    rw [hCP, getDA, hsh]
    simp [lookupA, he0, he1, he2, he3]
  have hg4 : getDA (extract_compression_info a) "Contents/content.hpf" ZIP_DEFLATED =
      e4.compress := by
    rw [hCP, getDA, hsh]
    simp [lookupA, he0, he1, he2, he3, he4]
  rw [hg1, hg2, hg3, hg4] at hent
  have hmap : (rest.map (fun e => (e.name, e.data))).map
      (fun nd => ZEntry.mk nd.1 (getDA (extract_compression_info a) nd.1 ZIP_DEFLATED) nd.2) =
      rest := by
    rw [List.map_map]
    have : ∀ e ∈ rest,
        ZEntry.mk e.name (getDA (extract_compression_info a) e.name ZIP_DEFLATED) e.data = e := by
      intro e he
      have hme : e ∈ a.entries := by rw [hsh]; simp [he]
      have : lookupA (a.entries.map (fun y => (y.name, y.compress))) e.name =
          some e.compress :=
        lookupA_map_of_nodup a.entries ZEntry.name ZEntry.compress hnd e hme
      rw [hCP, getDA, this]
      rfl
    calc rest.map ((fun nd => ZEntry.mk nd.1
            (getDA (extract_compression_info a) nd.1 ZIP_DEFLATED) nd.2) ∘
          (fun e => (e.name, e.data))) =
        rest.map id := List.map_congr_left (fun e he => this e he)
      _ = rest := List.map_id rest
  rw [hmap] at hent
  rw [hent, hsh, he0]
  rw [← he1, ← he2, ← he3, ← he4]
  rfl

theorem mem_keys_exists {α : Type} (l : List (String × α)) (k : String)
    (h : k ∈ l.map Prod.fst) : ∃ v, (k, v) ∈ l := by
  rcases List.mem_map.mp h with ⟨p, hp, hkey⟩
  obtain ⟨a, b⟩ := p
  exact ⟨b, by rw [← hkey]; exact hp⟩

set_option maxHeartbeats 2000000 in
/-- **C2** (amended). For a parsed archive edited so that exactly one
content part `P` is in the modified set, the written archive preserves,
for every input entry other than `P` AND other than the `mimetype` entry,
exactly the input's bytes and compression method.  (As stated the claim is
false: the writer rewrites `mimetype` as the fixed content-type string, so
an accepted `mimetype` entry with trailing whitespace is not passed
through — see the counterexample.) -/
theorem claim2_frame (a : Archive) (hwpx0 hwpx : HWPXFile) (out : Archive) (P : String)
    (hread : HWPXReader.read a = .ok hwpx0)
    (hnd : (a.entries.map ZEntry.name).Nodup)
    (hpath : pkgPathOf a = some "Contents/content.hpf")
    (hedit_af : hwpx.all_files = hwpx0.all_files)
    (hedit_orig : hwpx.original_xml_strings = hwpx0.original_xml_strings)
    (hedit_keys : hwpx.content_files.map Prod.fst = hwpx0.content_files.map Prod.fst)
    (hedit_v : hwpx.version_xml = hwpx0.version_xml)
    (hedit_c : hwpx.container_xml = hwpx0.container_xml)
    (hedit_m : hwpx.manifest_xml = hwpx0.manifest_xml)
    (hedit_h : hwpx.content_hpf = hwpx0.content_hpf)
    (hmod : hwpx.modified_files = [P])
    (hsave : save_modified_hwpx_compatible hwpx a = some out) :
    ∀ e ∈ a.entries, e.name ≠ P → e.name ≠ "mimetype" →
      lookupEntry out e.name = some (e.compress, e.data) := by
  obtain ⟨hAF, hMF, hAgree, hContent, hCNodup, hVer, hCon, hMan, hOV, hOC, hOM,
    hHPF, _⟩ := read_ok_props a hwpx0 hread
  have hpairs : a.entries.foldl (fun m e => setA m e.name e.data) [] =
      a.entries.map (fun e => (e.name, e.data)) :=
    foldl_setA_map a.entries ZEntry.name ZEntry.data hnd
  have hAF' : hwpx.all_files = a.entries.map (fun e => (e.name, e.data)) := by
    rw [hedit_af, hAF, hpairs]
  have hLP : ∀ n, lookupA (a.entries.map (fun e => (e.name, e.data))) n =
      entryData a n := by
    intro n
    unfold entryData
    rw [hpairs]
  have hCP : extract_compression_info a =
      a.entries.map (fun e => (e.name, e.compress)) := by
    unfold extract_compression_info
    exact foldl_setA_map a.entries ZEntry.name ZEntry.compress hnd
  have hkey_facts : ∀ n, n ∈ hwpx.content_files.map Prod.fst →
      lookupA hwpx.original_xml_strings n = entryData a n ∧
      (entryData a n).isSome := by
    intro n hn
    rw [hedit_keys] at hn
    obtain ⟨t0, ht0⟩ := mem_keys_exists _ _ hn
    obtain ⟨hsome, horig⟩ := hContent (n, t0) ht0
    exact ⟨by rw [hedit_orig]; exact horig, hsome⟩
  obtain ⟨v1, v2, v3, v4, hc1, hc2, hc3, hc4, hent⟩ := save_ok_shape hwpx a out hsave
  intro e he hneP hnem
  have hD : entryData a e.name = some e.data := by
    rw [← hLP]
    exact lookupA_map_of_nodup a.entries ZEntry.name ZEntry.data hnd e he
  have hC : lookupA (a.entries.map (fun y => (y.name, y.compress))) e.name =
      some e.compress :=
    lookupA_map_of_nodup a.entries ZEntry.name ZEntry.compress hnd e he
  have hgC : getDA (extract_compression_info a) e.name ZIP_DEFLATED = e.compress := by
    rw [hCP, getDA, hC]
    rfl
  have hPres : presentB a e.name = true := by simp [presentB, hD]
  by_cases h1 : e.name = "version.xml"
  · have hv1 : v1 = e.data := by
      cases hvx : hwpx.version_xml with
      | none => rw [hvx] at hc1; simp [coreSrc] at hc1
      | some t =>
        rw [hvx] at hc1
        simp only [coreSrc, Option.some.injEq] at hc1
        have hP' : presentB a "version.xml" = true := by rw [← h1]; exact hPres
        have hD' : entryData a "version.xml" = some e.data := by rw [← h1]; exact hD
        rw [← hc1, getDA, hedit_orig, hOV hP', hD']
        rfl
    have hge : getDA (extract_compression_info a) "version.xml" ZIP_DEFLATED =
        e.compress := by rw [← h1]; exact hgC
    rw [lookupEntry, hent, h1]
    rw [List.find?_cons_of_neg _ (by simp), List.find?_cons_of_pos _ (by simp)]
    simp [hv1, hge]
  by_cases h2 : e.name = "META-INF/container.xml"
  · have hv2 : v2 = e.data := by
      cases hvx : hwpx.container_xml with
      | none => rw [hvx] at hc2; simp [coreSrc] at hc2
      | some t =>
        rw [hvx] at hc2
        simp only [coreSrc, Option.some.injEq] at hc2
        have hP' : presentB a "META-INF/container.xml" = true := by rw [← h2]; exact hPres
        have hD' : entryData a "META-INF/container.xml" = some e.data := by rw [← h2]; exact hD
        rw [← hc2, getDA, hedit_orig, hOC hP', hD']
        rfl
    have hge : getDA (extract_compression_info a) "META-INF/container.xml" ZIP_DEFLATED =
        e.compress := by rw [← h2]; exact hgC
    rw [lookupEntry, hent, h2]
    rw [List.find?_cons_of_neg _ (by simp), List.find?_cons_of_neg _ (by simp),
      List.find?_cons_of_pos _ (by simp)]
    simp [hv2, hge]
  by_cases h3 : e.name = "META-INF/manifest.xml"
  · have hv3 : v3 = e.data := by
      cases hvx : hwpx.manifest_xml with
      | none => rw [hvx] at hc3; simp [coreSrc] at hc3
      | some t =>
        rw [hvx] at hc3
        simp only [coreSrc, Option.some.injEq] at hc3
        have hP' : presentB a "META-INF/manifest.xml" = true := by rw [← h3]; exact hPres
        have hD' : entryData a "META-INF/manifest.xml" = some e.data := by rw [← h3]; exact hD
        rw [← hc3, getDA, hedit_orig, hOM hP', hD']
        rfl
    have hge : getDA (extract_compression_info a) "META-INF/manifest.xml" ZIP_DEFLATED =
        e.compress := by rw [← h3]; exact hgC
    rw [lookupEntry, hent, h3]
    rw [List.find?_cons_of_neg _ (by simp), List.find?_cons_of_neg _ (by simp),
      List.find?_cons_of_neg _ (by simp), List.find?_cons_of_pos _ (by simp)]
    simp [hv3, hge]
  by_cases h4 : e.name = "Contents/content.hpf"
  · have hP4' : presentB a "Contents/content.hpf" = true := by rw [← h4]; exact hPres
    have hOH := (hHPF "Contents/content.hpf" hpath).2 hP4'
    have hv4 : v4 = e.data := by
      cases hvx : hwpx.content_hpf with
      | none => rw [hvx] at hc4; simp [coreSrc] at hc4
      | some t =>
        rw [hvx] at hc4
        simp only [coreSrc, Option.some.injEq] at hc4
        have hD' : entryData a "Contents/content.hpf" = some e.data := by
          rw [← h4]; exact hD
        rw [← hc4, getDA, hedit_orig, hOH, hD']
        rfl
    have hge : getDA (extract_compression_info a) "Contents/content.hpf" ZIP_DEFLATED =
        e.compress := by rw [← h4]; exact hgC
    rw [lookupEntry, hent, h4]
    rw [List.find?_cons_of_neg _ (by simp), List.find?_cons_of_neg _ (by simp),
      List.find?_cons_of_neg _ (by simp), List.find?_cons_of_neg _ (by simp),
      List.find?_cons_of_pos _ (by simp)]
    simp [hv4, hge]
  -- e.name is none of the five reserved names: served from the files dict
  have hfl : lookupA (eraseA (eraseA (eraseA (eraseA (eraseA
      (hwpx.content_files.foldl (compatFileStep hwpx)
        (setA (setA (setA (setA hwpx.all_files "version.xml" v1)
          "META-INF/container.xml" v2) "META-INF/manifest.xml" v3)
          "Contents/content.hpf" v4))
      "version.xml") "META-INF/container.xml") "META-INF/manifest.xml")
      "Contents/content.hpf") "mimetype") e.name = some e.data := by
    rw [lookupA_eraseA_ne _ _ _ hnem, lookupA_eraseA_ne _ _ _ h4,
      lookupA_eraseA_ne _ _ _ h3, lookupA_eraseA_ne _ _ _ h2,
      lookupA_eraseA_ne _ _ _ h1]
    rw [compatFileStep_eq]
    by_cases hinc : e.name ∈ hwpx.content_files.map Prod.fst
    · have hndk : (hwpx.content_files.map Prod.fst).Nodup := by
        rw [hedit_keys]
        simpa [keysA] using hCNodup
      obtain ⟨t, ht⟩ := mem_keys_exists _ _ hinc
      have hfm := foldl_setA_g_lookup_mem hwpx.content_files Prod.fst
        (compatValue hwpx) (e.name, t)
        (setA (setA (setA (setA hwpx.all_files "version.xml" v1)
          "META-INF/container.xml" v2) "META-INF/manifest.xml" v3)
          "Contents/content.hpf" v4) hndk ht
      rw [hfm]
      obtain ⟨horig, _⟩ := hkey_facts e.name hinc
      unfold compatValue
      rw [hmod]
      simp only [List.mem_singleton]
      rw [show (decide (e.name = P)) = false by simp [hneP]]
      simp only [Bool.not_false, Bool.and_true]
      rw [if_pos (by simp [memA, horig, hD])]
      rw [getDA, horig, hD]
      rfl
    · rw [foldl_setA_g_lookup_not_mem _ _ _ _ _ hinc]
      rw [lookupA_setA_ne _ _ _ _ h4, lookupA_setA_ne _ _ _ _ h3,
        lookupA_setA_ne _ _ _ _ h2, lookupA_setA_ne _ _ _ _ h1]
      rw [hAF', hLP]
      exact hD
  rw [lookupEntry, hent]
  rw [List.find?_cons_of_neg _ (by simp [Ne.symm hnem]),
    List.find?_cons_of_neg _ (by simp [Ne.symm h1]),
    List.find?_cons_of_neg _ (by simp [Ne.symm h2]),
    List.find?_cons_of_neg _ (by simp [Ne.symm h3]),
    List.find?_cons_of_neg _ (by simp [Ne.symm h4])]
  rw [find?_entry_map _ (fun n => getDA (extract_compression_info a) n ZIP_DEFLATED)
    e.name, hfl]
  simp [hgC]

/-- **C1** counterexample.  `ce1A` is a perfectly valid archive (it
parses successfully, no edits are applied) whose only peculiarity is that
`META-INF/container.xml` is archived before `version.xml`; the written
output does not equal the input — the writer reorders the entries — so
`write(parse(A)) == A` byte-for-byte in entry order fails as stated. -/
theorem claim1_counterexample :
    exceptOk (HWPXReader.read ce1A) = true ∧
    (ce1Out.map Archive.entries) ≠ some ce1A.entries := by
  constructor
  · decide
  · decide

/-- **C1** witness: on the canonically-ordered archive `wA` the amended
round-trip theorem applies and the output equals the input entry list. -/
theorem claim1_witness :
    ((HWPXReader.read wA).toOption.bind
      (fun h => save_modified_hwpx_compatible h wA)).map Archive.entries =
      some wA.entries := by
  have hread : HWPXReader.read wA = .ok wPkg := rfl
  have hsave : save_modified_hwpx_compatible wPkg wA = some wOut := rfl
  have hout : wOut.entries = wA.entries :=
    claim1_roundtrip wA wPkg wOut
      (ZEntry.mk "mimetype" ZIP_STORED MIMETYPE)
      (ZEntry.mk "version.xml" ZIP_DEFLATED "<v/>")
      (ZEntry.mk "META-INF/container.xml" ZIP_DEFLATED "<c/>")
      (ZEntry.mk "META-INF/manifest.xml" ZIP_DEFLATED "<m/>")
      (ZEntry.mk "Contents/content.hpf" ZIP_DEFLATED "<h/>")
      [ZEntry.mk "Contents/section0.xml" ZIP_STORED "<s>Hello</s>"]
      rfl rfl rfl rfl rfl rfl (by decide) (by decide) hread hsave
  rw [hread]
  have hb : ((Except.ok wPkg : Except String HWPXFile).toOption.bind
      (fun h => save_modified_hwpx_compatible h wA)) = some wOut := by
    rw [show (Except.ok wPkg : Except String HWPXFile).toOption = some wPkg from rfl]
    rw [show ((some wPkg).bind (fun h => save_modified_hwpx_compatible h wA)) =
      save_modified_hwpx_compatible wPkg wA from rfl]
    exact hsave
  rw [hb]
  simp [hout]

/-- **C2** counterexample.  `ce2A` parses successfully (its `mimetype`
entry carries a tolerated trailing newline) and the edit marks exactly one
part, `Contents/section0.xml`, as modified; yet the written bytes of the
`mimetype` entry — a part other than the modified one — differ from its
original input bytes, refuting "every other part's output bytes equal its
input bytes exactly". -/
theorem claim2_counterexample :
    exceptOk (HWPXReader.read ce2A) = true ∧
    ce2Pkg.modified_files = ["Contents/section0.xml"] ∧
    ("mimetype" : String) ≠ "Contents/section0.xml" ∧
    lookupEntry ce2A "mimetype" = some (ZIP_STORED, MIMETYPE ++ "\n") ∧
    lookupEntry ce2Out "mimetype" = some (ZIP_STORED, MIMETYPE) ∧
    lookupEntry ce2Out "mimetype" ≠ lookupEntry ce2A "mimetype" := by
  refine ⟨by decide, by decide, by decide, by decide, by decide, by decide⟩

/-- **C2** witness: on the canonical archive `wA`, edited so that exactly
the section part is modified, the amended frame theorem yields verbatim
passthrough of another entry (`version.xml`). -/
theorem claim2_witness :
    lookupEntry w2Out "version.xml" = some (ZIP_DEFLATED, "<v/>") := by
  have happ := claim2_frame wA wPkg w2Pkg w2Out "Contents/section0.xml"
    rfl (by decide) (by decide) rfl rfl (by decide) rfl rfl rfl rfl (by decide) rfl
    (ZEntry.mk "version.xml" ZIP_DEFLATED "<v/>") (by decide) (by decide) (by decide)
  exact happ

theorem exceptOk_iff {ε α : Type} (x : Except ε α) :
    exceptOk x = true ↔ ∃ v, x = .ok v := by
  cases x with
  | ok v => simp [exceptOk]
  | error e => simp [exceptOk]

/-- **C3** (amended). Every writer emits `mimetype` as the first entry,
but they disagree on the rest of the claimed invariant: the compatible
writer stores it uncompressed with the fixed content-type string; the
package writer stores it uncompressed with whatever string its
constructor received (default `application/haansofthwp`, not the fixed
string); the blank-template producer writes the fixed string but with the
archive-default deflate method, not stored. -/
theorem claim3_mimetype_first :
    (∀ (hwpx : HWPXFile) (orig out : Archive),
      save_modified_hwpx_compatible hwpx orig = some out →
      out.entries.head? = some (ZEntry.mk "mimetype" ZIP_STORED MIMETYPE)) ∧
    (∀ (w : HwpxWriter) (hpfDoc : Option XTree) (out : Archive),
      HwpxWriter.write w hpfDoc = some out →
      out.entries.head? = some (ZEntry.mk "mimetype" ZIP_STORED w.mimetype)) ∧
    (∀ now : String, (make_blank now).entries.head? =
      some (ZEntry.mk "mimetype" ZIP_DEFLATED MIMETYPE)) := by
  refine ⟨?_, ?_, ?_⟩
  · intro hwpx orig out h
    obtain ⟨v1, v2, v3, v4, _, _, _, _, hent⟩ := save_ok_shape hwpx orig out h
    rw [hent]
    rfl
  · intro w hpfDoc out h
    unfold HwpxWriter.write at h
    obtain ⟨refEntries, _, h⟩ := option_bind_some _ _ _ h
    simp only [pure, Option.some.injEq] at h
    rw [← h]
    rfl
  · intro now
    rfl

/-- **C3** counterexample.  The blank-template producer deflates its
`mimetype` entry, and the package writer's default mimetype string is not
the fixed content-type string — two concrete violations of the claimed
invariant. -/
theorem claim3_counterexample :
    (make_blank "T").entries.head?.map ZEntry.compress = some ZIP_DEFLATED ∧
    ZIP_DEFLATED ≠ ZIP_STORED ∧
    (ce3W.write none).map (fun o => o.entries.head?.map ZEntry.data) =
      some (some "application/haansofthwp") ∧
    ("application/haansofthwp" : String) ≠ MIMETYPE := by
  refine ⟨by decide, by decide, by decide, by decide⟩

/-- **C3** witness: the amended theorem applied to a concrete compatible
write, to a concrete `HwpxWriter` run, and to a concrete blank file. -/
theorem claim3_witness :
    wOut.entries.head? = some (ZEntry.mk "mimetype" ZIP_STORED MIMETYPE) ∧
    ((ce3W.write none).getD (Archive.mk [] [])).entries.head? =
      some (ZEntry.mk "mimetype" ZIP_STORED "application/haansofthwp") ∧
    (make_blank "T").entries.head? = some (ZEntry.mk "mimetype" ZIP_DEFLATED MIMETYPE) := by
  refine ⟨claim3_mimetype_first.1 wPkg wA wOut rfl, ?_, claim3_mimetype_first.2.2 "T"⟩
  exact claim3_mimetype_first.2.1 ce3W none _ rfl

/-- **C4** (amended). `_check_mimetype` succeeds exactly when the
`mimetype` entry exists and its content equals the fixed content-type
string after trimming LEADING AND trailing whitespace (Python
`str.strip()`), not trailing whitespace only as the claim states. -/
theorem claim4_mimetype_check (a : Archive) :
    exceptOk (check_mimetype a) = true ↔
      ∃ d, entryData a "mimetype" = some d ∧ pyStrip d = MIMETYPE := by
  unfold check_mimetype
  cases hd : entryData a "mimetype" with
  | none => simp [exceptOk]
  | some d =>
    by_cases hs : pyStrip d = MIMETYPE
    · simp [hs, exceptOk]
    · simp [hs, exceptOk]

/-- **C4** counterexample.  An archive whose `mimetype` content is the
content-type string with a LEADING space: the claim demands rejection
("matches only after removing leading whitespace must be rejected"), yet
the code's `strip()` accepts it. -/
theorem claim4_counterexample :
    exceptOk (check_mimetype ce4A) = true ∧
    pyRstrip (" " ++ MIMETYPE) ≠ MIMETYPE ∧
    pyStrip (" " ++ MIMETYPE) = MIMETYPE := by
  refine ⟨by decide, by decide, by decide⟩

/-- **C4** witness: the amended characterization applied to the concrete
archive `wA` (exact mimetype content, accepted). -/
theorem claim4_witness : exceptOk (check_mimetype wA) = true :=
  (claim4_mimetype_check wA).mpr ⟨MIMETYPE, by decide, by decide⟩

theorem exceptOk_bind {ε α β : Type} (x : Except ε α) (f : α → Except ε β) :
    exceptOk (x >>= f) = true ↔ ∃ v, x = .ok v ∧ exceptOk (f v) = true := by
  cases x with
  | ok v => simp [Bind.bind, Except.bind]
  | error e => simp [Bind.bind, Except.bind, exceptOk]

theorem read_xml_ok_pw (a : Archive) (n : String) (o : Option XTree)
    (h : read_xml a n = .ok o) (hp : presentB a n = true) : wfB a n = true := by
  obtain ⟨t, ht⟩ := Option.isSome_iff_exists.mp (read_xml_ok_present_some a n o h hp)
  rw [ht] at h
  obtain ⟨_, hdoc⟩ := read_xml_ok_some_present a n t h
  simp [wfB, hdoc]

theorem read_xml_ok_of_pw (a : Archive) (n : String)
    (h : presentB a n = true → wfB a n = true) : ∃ o, read_xml a n = .ok o := by
  unfold read_xml
  cases hd : entryData a n with
  | none => exact ⟨none, rfl⟩
  | some d =>
    have hw : wfB a n = true := h (by simp [presentB, hd])
    obtain ⟨t, ht⟩ := Option.isSome_iff_exists.mp hw
    rw [ht]
    exact ⟨some t, rfl⟩

theorem readItemStep_ok_pw (a : Archive) (s s' : HWPXFile) (item : ManifestItem)
    (h : readItemStep a s item = .ok s')
    (hx : item.media_type = "application/xml")
    (hp : presentB a item.href = true) : wfB a item.href = true := by
  unfold readItemStep at h
  rw [if_pos hx] at h
  obtain ⟨o, ho, _⟩ := except_bind_ok _ _ _ h
  exact read_xml_ok_pw a item.href o ho hp

theorem readItemStep_ok_of_pw (a : Archive) (s : HWPXFile) (item : ManifestItem)
    (h : item.media_type = "application/xml" →
      presentB a item.href = true → wfB a item.href = true) :
    ∃ s', readItemStep a s item = .ok s' := by
  unfold readItemStep
  by_cases hx : item.media_type = "application/xml"
  · rw [if_pos hx]
    obtain ⟨o, ho⟩ := read_xml_ok_of_pw a item.href (h hx)
    rw [ho]
    cases o with
    | none => exact ⟨s, rfl⟩
    | some tree => exact ⟨_, rfl⟩
  · rw [if_neg hx]
    cases hd : entryData a item.href with
    | none => exact ⟨s, rfl⟩
    | some d => exact ⟨_, rfl⟩

theorem readFold_ok_pw (a : Archive) (items : List ManifestItem) :
    ∀ (st stN : HWPXFile), items.foldlM (readItemStep a) st = .ok stN →
    ∀ item ∈ items, item.media_type = "application/xml" →
      presentB a item.href = true → wfB a item.href = true := by
  induction items with
  | nil => intro st stN _ item hitem; simp at hitem
  | cons x xs ih =>
    intro st stN h item hitem hx hp
    rw [List.foldlM_cons] at h
    obtain ⟨s1, hs1, hrest⟩ := except_bind_ok _ _ _ h
    rcases List.mem_cons.mp hitem with h' | h'
    · subst h'
      exact readItemStep_ok_pw a st s1 item hs1 hx hp
    · exact ih s1 stN hrest item h' hx hp

theorem readFold_ok_of_pw (a : Archive) (items : List ManifestItem)
    (hcond : ∀ item ∈ items, item.media_type = "application/xml" →
      presentB a item.href = true → wfB a item.href = true) :
    ∀ st : HWPXFile, ∃ stN, items.foldlM (readItemStep a) st = .ok stN := by
  induction items with
  | nil => intro st; exact ⟨st, rfl⟩
  | cons x xs ih =>
    intro st
    obtain ⟨s1, hs1⟩ := readItemStep_ok_of_pw a st x (hcond x (by simp))
    obtain ⟨stN, hstN⟩ := ih (fun item hi => hcond item (by simp [hi])) s1
    refine ⟨stN, ?_⟩
    rw [List.foldlM_cons, hs1]
    simpa [Bind.bind, Except.bind] using hstN

set_option maxHeartbeats 1000000 in
/-- **C5** (amended). Parsing succeeds if and only if the mimetype check
passes and every XML part that is PRESENT in the archive — `version.xml`,
`META-INF/container.xml`, `META-INF/manifest.xml`, the content-package
descriptor, and every manifest item of media type `application/xml` — is
well-formed; a missing part, attachment or chart is skipped without
raising.  In particular (contrary to the claim) a malformed individual
content part IS fatal, and malformed `version.xml`/`manifest.xml` are
also fatal although they are neither the container nor the descriptor. -/
theorem claim5_parse_failures (a : Archive) :
    exceptOk (HWPXReader.read a) = true ↔
      (exceptOk (check_mimetype a) = true ∧
       (presentB a "version.xml" = true → wfB a "version.xml" = true) ∧
       (presentB a "META-INF/container.xml" = true →
         wfB a "META-INF/container.xml" = true) ∧
       (presentB a "META-INF/manifest.xml" = true →
         wfB a "META-INF/manifest.xml" = true) ∧
       (∀ p, pkgPathOf a = some p →
         (presentB a p = true → wfB a p = true) ∧
         ∀ item ∈ itemsOf a p, item.media_type = "application/xml" →
           presentB a item.href = true → wfB a item.href = true)) := by
  unfold HWPXReader.read
  constructor
  · intro h
    obtain ⟨u, hu, h⟩ := (exceptOk_bind _ _).mp h
    obtain ⟨version, hver, h⟩ := (exceptOk_bind _ _).mp h
    obtain ⟨container, hcon, h⟩ := (exceptOk_bind _ _).mp h
    obtain ⟨manifest, hman, h⟩ := (exceptOk_bind _ _).mp h
    have hconval := read_xml_ok_val a "META-INF/container.xml" container hcon
    have hpc : (parse_container container).1 = pkgPathOf a := by
      rw [pkgPathOf, ← hconval]
    refine ⟨by rw [hu]; rfl, fun hp => read_xml_ok_pw a _ _ hver hp,
      fun hp => read_xml_ok_pw a _ _ hcon hp,
      fun hp => read_xml_ok_pw a _ _ hman hp, ?_⟩
    intro p hp
    dsimp only at h
    rw [hpc, hp] at h
    obtain ⟨hpf, hhpf, h⟩ := (exceptOk_bind _ _).mp h
    have hlist : itemsOf a p = parse_content_manifest hpf := by
      rw [itemsOf, ← read_xml_ok_val a p hpf hhpf]
    obtain ⟨stN, hstN⟩ := (exceptOk_iff _).mp h
    refine ⟨fun hpres => read_xml_ok_pw a p hpf hhpf hpres, ?_⟩
    intro item hitem hx hpres
    rw [hlist] at hitem
    exact readFold_ok_pw a (parse_content_manifest hpf) _ stN hstN item hitem hx hpres
  · intro ⟨hmt, hv, hc, hm, hrest⟩
    rw [exceptOk_bind]
    obtain ⟨u, hu⟩ := (exceptOk_iff _).mp hmt
    refine ⟨u, hu, ?_⟩
    obtain ⟨vo, hver⟩ := read_xml_ok_of_pw a "version.xml" hv
    rw [exceptOk_bind]
    refine ⟨vo, hver, ?_⟩
    obtain ⟨co, hcon⟩ := read_xml_ok_of_pw a "META-INF/container.xml" hc
    rw [exceptOk_bind]
    refine ⟨co, hcon, ?_⟩
    obtain ⟨mo, hman⟩ := read_xml_ok_of_pw a "META-INF/manifest.xml" hm
    rw [exceptOk_bind]
    refine ⟨mo, hman, ?_⟩
    have hconval := read_xml_ok_val a "META-INF/container.xml" co hcon
    have hpc : (parse_container co).1 = pkgPathOf a := by
      rw [pkgPathOf, ← hconval]
    dsimp only
    cases hp : (parse_container co).1 with
    | none =>
      rfl
    | some p =>
      have hp' : pkgPathOf a = some p := by rw [← hpc, hp]
      obtain ⟨hpw, hitems⟩ := hrest p hp'
      obtain ⟨ho, hhpf⟩ := read_xml_ok_of_pw a p hpw
      rw [exceptOk_bind]
      refine ⟨ho, hhpf, ?_⟩
      have hlist : parse_content_manifest ho = itemsOf a p := by
        rw [itemsOf, read_xml_ok_val a p ho hhpf]
      exact (exceptOk_iff _).mpr
        (readFold_ok_of_pw a (parse_content_manifest ho)
          (fun item hi => hitems item (by rw [← hlist]; exact hi)) _)

/-- **C5** counterexample.  `ce5A` has a well-formed container and
descriptor, and a PRESENT but malformed content part
(`Contents/section0.xml`), which the claim says must be skipped without
raising — yet the reader raises a fatal error. -/
theorem claim5_counterexample :
    presentB ce5A "META-INF/container.xml" = true ∧
    wfB ce5A "META-INF/container.xml" = true ∧
    presentB ce5A "Contents/content.hpf" = true ∧
    wfB ce5A "Contents/content.hpf" = true ∧
    presentB ce5A "Contents/section0.xml" = true ∧
    wfB ce5A "Contents/section0.xml" = false ∧
    exceptOk (HWPXReader.read ce5A) = false := by
  refine ⟨by decide, by decide, by decide, by decide, by decide, by decide, by decide⟩

/-- **C5** witness: the amended characterization applied to the concrete
archive `wA`, whose present parts are all well-formed, so parsing
succeeds. -/
theorem claim5_witness : exceptOk (HWPXReader.read wA) = true := by
  apply (claim5_parse_failures wA).mpr
  refine ⟨by decide, by decide, by decide, by decide, ?_⟩
  intro p hp
  have hpval : p = "Contents/content.hpf" := by
    have : pkgPathOf wA = some "Contents/content.hpf" := by decide
    rw [this] at hp
    exact ((Option.some.injEq _ _).mp hp).symm
  subst hpval
  refine ⟨by decide, ?_⟩
  intro item hitem hx hpres
  have : itemsOf wA "Contents/content.hpf" =
      [ManifestItem.mk "Contents/section0.xml" "application/xml"] := by decide
  rw [this] at hitem
  simp at hitem
  subst hitem
  decide

/-! Edit-operation lemmas (C6, C7). -/

theorem bne_symm_str (a b : String) : (a != b) = (b != a) := by
  by_cases h : a = b
  · subst h; rfl
  · rw [bne_iff_ne.mpr h, bne_iff_ne.mpr (Ne.symm h)]

theorem optPair_any (f : String → String) (o : Option String) :
    (pyTruthy o && (f (o.getD "") != o.getD "")) =
      ((match o with
        | some s => if s.isEmpty then [] else [(s, f s)]
        | none => ([] : List (String × String))).any (fun pr => pr.1 != pr.2)) := by
  cases o with
  | none => rfl
  | some s =>
    by_cases hs : s.isEmpty
    · simp [pyTruthy, hs]
    · simp [pyTruthy, hs]
      exact bne_symm_str (f s) s

/-- The `has_modifications` flag equals "some visited (old, new) pair
differs". -/
theorem textsChangedB_eq_any (f : String → String) (t : XTree) :
    t.textsChangedB f = (t.textPairs f).any (fun pr => pr.1 != pr.2) := by
  induction t with
  | nil => rfl
  | node tag attrib text tail children next ihc ihn =>
    simp only [XTree.textsChangedB, XTree.textPairs, List.any_append, ihc, ihn,
      optPair_any, Bool.or_assoc]

theorem mem_addIfAbsent (l : List String) (k n : String) :
    n ∈ addIfAbsent l k ↔ n ∈ l ∨ n = k := by
  unfold addIfAbsent
  by_cases h : k ∈ l
  · simp [h]
    intro hn
    rw [hn]
    exact h
  · simp [h]

theorem mem_foldl_addIfAbsent {β : Type} (l : List β) (p : β → Bool)
    (key : β → String) (n : String) :
    ∀ init : List String,
      (n ∈ l.foldl (fun ms x => if p x then addIfAbsent ms (key x) else ms) init ↔
        n ∈ init ∨ ∃ x ∈ l, p x = true ∧ key x = n) := by
  induction l with
  | nil => intro init; simp
  | cons x xs ih =>
    intro init
    rw [List.foldl_cons]
    by_cases hx : p x
    · rw [if_pos hx, ih, mem_addIfAbsent]
      constructor
      · rintro ((h | h) | ⟨y, hy, hp, hk⟩)
        · exact Or.inl h
        · exact Or.inr ⟨x, by simp, hx, h.symm⟩
        · exact Or.inr ⟨y, by simp [hy], hp, hk⟩
      · rintro (h | ⟨y, hy, hp, hk⟩)
        · exact Or.inl (Or.inl h)
        · rcases List.mem_cons.mp hy with h' | h'
          · subst h'
            exact Or.inl (Or.inr hk.symm)
          · exact Or.inr ⟨y, h', hp, hk⟩
    · rw [if_neg hx, ih]
      constructor
      · rintro (h | ⟨y, hy, hp, hk⟩)
        · exact Or.inl h
        · exact Or.inr ⟨y, by simp [hy], hp, hk⟩
      · rintro (h | ⟨y, hy, hp, hk⟩)
        · exact Or.inl h
        · rcases List.mem_cons.mp hy with h' | h'
          · subst h'
            rw [hp] at hx
            exact absurd rfl hx
          · exact Or.inr ⟨y, h', hp, hk⟩

/-- **C6** (amended). A part is added to the modified-parts set if and
only if at least one of its text nodes' body or tail values is actually
changed by the transform (the `(old, new)` pairs the mutation loop
visits contain a differing pair); parts whose every visited value is
unchanged are not marked.  (The claim's other half is false: the bulk
transform returns no integer at all, and the search/replace primitive
returns the total occurrence count, not the changed-node count — see the
counterexample.) -/
theorem claim6_modified_iff (hwpx : HWPXFile) (f : String → String) (n : String) :
    n ∈ (modify_package_texts hwpx f).modified_files ↔
      n ∈ hwpx.modified_files ∨
      ∃ nt ∈ hwpx.content_files, nt.1 = n ∧
        ∃ pr ∈ XTree.textPairs f nt.2, pr.1 ≠ pr.2 := by
  have hL : n ∈ (modify_package_texts hwpx f).modified_files ↔
      n ∈ hwpx.modified_files ∨
      ∃ nt ∈ hwpx.content_files, XTree.textsChangedB f nt.2 = true ∧ nt.1 = n :=
    mem_foldl_addIfAbsent hwpx.content_files
      (fun nt => XTree.textsChangedB f nt.2) Prod.fst n hwpx.modified_files
  rw [hL]
  constructor
  · rintro (h | ⟨nt, hnt, hch, hk⟩)
    · exact Or.inl h
    · refine Or.inr ⟨nt, hnt, hk, ?_⟩
      rw [textsChangedB_eq_any] at hch
      obtain ⟨pr, hpr, hne⟩ := List.any_eq_true.mp hch
      exact ⟨pr, hpr, by simpa using hne⟩
  · rintro (h | ⟨nt, hnt, hk, pr, hpr, hne⟩)
    · exact Or.inl h
    · refine Or.inr ⟨nt, hnt, ?_, hk⟩
      rw [textsChangedB_eq_any]
      exact List.any_eq_true.mpr ⟨pr, hpr, by simpa using hne⟩

/-- **C6** counterexample.  A package with a single text node `"abab"`:
replacing `"ab"` changes exactly one node, but the search/replace
primitive reports 2 (the occurrence count), not 1 — no edit primitive
returns the number of nodes actually changed (the bulk transform returns
none at all). -/
theorem claim6_counterexample :
    replace_count pkg6 "ab" = 2 ∧
    changedNodesTotal pkg6 (pyReplace "ab" "x") = 1 ∧
    (2 : Nat) ≠ 1 := by
  refine ⟨by decide, by decide, by decide⟩

/-! Occurrence-count and replacement lemmas (C7). -/

theorem countFuel_single_zero (c : Char) :
    ∀ (fuel : Nat) (l : List Char), c ∉ l → countFuel [c] fuel l = 0 := by
  intro fuel
  induction fuel with
  | zero => intro l _; cases l <;> rfl
  | succ n ih =>
    intro l hc
    cases l with
    | nil => rfl
    | cons x xs =>
      have hx : c ≠ x := fun h => hc (h ▸ List.mem_cons_self x xs)
      have hpf : pfxOf [c] (x :: xs) = false := by
        simp [pfxOf, beq_eq_false_iff_ne.mpr hx]
      rw [show countFuel [c] (n + 1) (x :: xs) =
          if pfxOf [c] (x :: xs) = true then 1 + countFuel [c] n xs
          else countFuel [c] n xs from rfl, hpf]
      rw [if_neg Bool.false_ne_true]
      exact ih xs (fun h => hc (List.mem_cons_of_mem x h))

theorem replaceFuel_single_free (c : Char) (R : List Char) (hc : c ∉ R) :
    ∀ (fuel : Nat) (l : List Char), l.length ≤ fuel →
      c ∉ replaceFuel [c] R fuel l := by
  intro fuel
  induction fuel with
  | zero =>
    intro l hl
    have h0 : l = [] := List.length_eq_zero.mp (Nat.le_zero.mp hl)
    subst h0
    exact List.not_mem_nil c
  | succ n ih =>
    intro l hl
    cases l with
    | nil => exact List.not_mem_nil c
    | cons x xs =>
      have hxs : xs.length ≤ n := by
        simp only [List.length_cons] at hl
        omega
      by_cases hx : c = x
      · subst hx
        have hpf : pfxOf [c] (c :: xs) = true := by simp [pfxOf]
        rw [show replaceFuel [c] R (n + 1) (c :: xs) =
            if pfxOf [c] (c :: xs) = true then R ++ replaceFuel [c] R n xs
            else c :: replaceFuel [c] R n xs from rfl, hpf, if_pos rfl]
        intro hmem
        rcases List.mem_append.mp hmem with h | h
        · exact hc h
        · exact ih xs hxs h
      · have hpf : pfxOf [c] (x :: xs) = false := by
          simp [pfxOf, beq_eq_false_iff_ne.mpr hx]
        rw [show replaceFuel [c] R (n + 1) (x :: xs) =
            if pfxOf [c] (x :: xs) = true then R ++ replaceFuel [c] R n xs
            else x :: replaceFuel [c] R n xs from rfl, hpf,
          if_neg Bool.false_ne_true]
        intro hmem
        rcases List.mem_cons.mp hmem with h | h
        · exact hx h
        · exact ih xs hxs h

/-- Every collected `hp:t` text of a transformed tree is the image under
the transform of some string. -/
theorem mem_tagTexts_mapTexts (tagName : String) (f : String → String) :
    ∀ (t : XTree) (v : String),
      v ∈ XTree.tagTexts tagName (XTree.mapTexts f t) → ∃ s, v = f s := by
  intro t
  induction t with
  | nil =>
    intro v hv
    exact absurd hv (List.not_mem_nil v)
  | node tag attrib text tail children next ihc ihn =>
    intro v hv
    simp only [XTree.mapTexts, XTree.tagTexts, List.mem_append] at hv
    rcases hv with (hv | hv) | hv
    · by_cases htag : tag = tagName
      · rw [if_pos htag] at hv
        cases text with
        | none => exact absurd hv (List.not_mem_nil v)
        | some s =>
          by_cases hs : s.isEmpty
          · simp [applyIfTruthy, hs] at hv
          · simp only [applyIfTruthy, hs, if_false, Bool.false_eq_true] at hv
            by_cases hfe : (f s).isEmpty
            · simp [hfe] at hv
            · simp [hfe] at hv
              exact ⟨s, hv⟩
      · rw [if_neg htag] at hv
        exact absurd hv (List.not_mem_nil v)
    · exact ihc v hv
    · exact ihn v hv

theorem join_free (c : Char) :
    ∀ (L : List String) (init : String), c ∉ init.data →
      (∀ s ∈ L, c ∉ s.data) →
      c ∉ (L.foldl (fun r s => r ++ s) init).data := by
  intro L
  induction L with
  | nil => intro init h _; exact h
  | cons x xs ih =>
    intro init h hall
    rw [List.foldl_cons]
    refine ih (init ++ x) ?_ (fun s hs => hall s (List.mem_cons_of_mem x hs))
    rw [String.data_append]
    intro hmem
    rcases List.mem_append.mp hmem with h' | h'
    · exact h h'
    · exact hall x (List.mem_cons_self x xs) h'

theorem mem_foldl_filter_append {β : Type} (g : β → List String) (p : β → Bool)
    (x : String) :
    ∀ (l : List β) (init : List String),
      x ∈ l.foldl (fun acc nt => if p nt then acc ++ g nt else acc) init →
      x ∈ init ∨ ∃ nt ∈ l, x ∈ g nt := by
  intro l
  induction l with
  | nil => intro init h; exact Or.inl h
  | cons y ys ih =>
    intro init h
    rw [List.foldl_cons] at h
    by_cases hy : p y
    · rw [if_pos hy] at h
      rcases ih _ h with h' | ⟨nt, hnt, hx⟩
      · rcases List.mem_append.mp h' with h'' | h''
        · exact Or.inl h''
        · exact Or.inr ⟨y, List.mem_cons_self y ys, h''⟩
      · exact Or.inr ⟨nt, List.mem_cons_of_mem y hnt, hx⟩
    · rw [if_neg hy] at h
      rcases ih _ h with h' | ⟨nt, hnt, hx⟩
      · exact Or.inl h'
      · exact Or.inr ⟨nt, List.mem_cons_of_mem y hnt, hx⟩

theorem optSlot_count (S lbl : String) (o : Option String) :
    (if pyTruthy o then pyCount S (o.getD "") else 0) =
      ((match o with
        | some s => if s.isEmpty then [] else [(lbl, s)]
        | none => ([] : List (String × String))).map
        (fun sv : String × String => pyCount S sv.2)).sum := by
  cases o with
  | none => rfl
  | some s =>
    by_cases hs : s.isEmpty
    · simp [pyTruthy, hs]
    · simp [pyTruthy, hs]

/-- Per-tree occurrence total equals the sum over the enumerated text
slots. -/
theorem countTexts_eq_slots (S : String) (t : XTree) :
    t.countTexts S = (t.textSlots.map (fun sv => pyCount S sv.2)).sum := by
  induction t with
  | nil => rfl
  | node tag attrib text tail children next ihc ihn =>
    simp only [XTree.countTexts, XTree.textSlots, List.map_append,
      List.sum_append, ihc, ihn, optSlot_count S "text" text,
      optSlot_count S "tail" tail]

theorem foldl_add_sum {β : Type} (g : β → Nat) :
    ∀ (l : List β) (init : Nat),
      l.foldl (fun acc nt => acc + g nt) init = init + (l.map g).sum := by
  intro l
  induction l with
  | nil => intro init; simp
  | cons x xs ih =>
    intro init
    rw [List.foldl_cons, ih, List.map_cons, List.sum_cons]
    omega

theorem foldl_append_flatten {β γ : Type} (h : β → List γ) :
    ∀ (l : List β) (init : List γ),
      l.foldl (fun acc nt => acc ++ h nt) init = init ++ (l.map h).flatten := by
  intro l
  induction l with
  | nil => intro init; simp
  | cons x xs ih =>
    intro init
    rw [List.foldl_cons, ih, List.map_cons, List.flatten_cons, List.append_assoc]

theorem enum_map_snd_f {α β : Type} (F : α → β) (l : List α) :
    l.enum.map (fun p => F p.2) = l.map F := by
  rw [show (fun p : Nat × α => F p.2) = F ∘ Prod.snd from rfl, ← List.map_map,
    List.enum_map_snd]

/-- The count returned by the replace primitive is exactly the total of
`text.count(search)` over the enumerated text nodes. -/
theorem replace_count_eq_total (hwpx : HWPXFile) (S : String) :
    replace_count hwpx S = totalOccurrences hwpx S := by
  have h1 : replace_count hwpx S =
      0 + (hwpx.content_files.map (fun nt => XTree.countTexts S nt.2)).sum :=
    foldl_add_sum (fun nt : String × XTree => XTree.countTexts S nt.2)
      hwpx.content_files 0
  have h2 : (hwpx.content_files.foldl
      (fun acc nt => acc ++ nt.2.textSlots.map (fun sv => (nt.1, sv.1, sv.2)))
      []) =
      [] ++ (hwpx.content_files.map
        (fun nt => nt.2.textSlots.map (fun sv => (nt.1, sv.1, sv.2)))).flatten :=
    foldl_append_flatten
      (fun nt => nt.2.textSlots.map (fun sv => (nt.1, sv.1, sv.2)))
      hwpx.content_files []
  have h3 : enumerate_text_nodes hwpx =
      ((hwpx.content_files.map
        (fun nt => nt.2.textSlots.map (fun sv => (nt.1, sv.1, sv.2)))).flatten).enum.map
        (fun p => (p.1, p.2.1, p.2.2.1, p.2.2.2)) := by
    unfold enumerate_text_nodes
    dsimp only
    rw [h2, List.nil_append]
  rw [h1, Nat.zero_add,
    show totalOccurrences hwpx S =
      ((enumerate_text_nodes hwpx).map (fun nd => pyCount S nd.2.2.2)).sum
      from rfl, h3, List.map_map,
    show ((fun nd : Nat × String × String × String => pyCount S nd.2.2.2) ∘
      (fun p : Nat × (String × String × String) =>
        (p.1, p.2.1, p.2.2.1, p.2.2.2))) =
      (fun p : Nat × (String × String × String) => pyCount S p.2.2.2) from rfl]
  have h4 : ((hwpx.content_files.map
      (fun nt => nt.2.textSlots.map (fun sv => (nt.1, sv.1, sv.2)))).flatten).enum.map
        (fun p => pyCount S p.2.2.2) =
      ((hwpx.content_files.map
        (fun nt => nt.2.textSlots.map (fun sv => (nt.1, sv.1, sv.2)))).flatten).map
        (fun x => pyCount S x.2.2) :=
    enum_map_snd_f (fun x : String × String × String => pyCount S x.2.2) _
  rw [h4,
    List.map_flatten (fun x : String × String × String => pyCount S x.2.2) _,
    List.sum_flatten, List.map_map, List.map_map]
  refine congrArg List.sum (List.map_congr_left ?_)
  intro nt _
  simp only [Function.comp_apply]
  rw [countTexts_eq_slots, List.map_map]
  rfl

/-- **C7** (amended).  The count returned by search/replace equals the
total number of non-overlapping occurrences of the search string across
the enumerated text nodes.  The claim's zero-residue guarantee holds in
the per-node form and, unconditionally, for single-character search
strings not reintroduced by the replacement: after replacing a character
`c` by a `c`-free replacement, the extracted full text of the output
contains no occurrence of `c`.  (For multi-character search strings the
extracted full text may still contain the search string across a node
boundary — see the counterexample.) -/
theorem claim7_replace (hwpx : HWPXFile) (c : Char) (R S : String)
    (hc : c ∉ R.data) :
    replace_count hwpx S = totalOccurrences hwpx S ∧
    pyCount (String.singleton c)
      (package_extract_text
        (modify_package_texts hwpx (pyReplace (String.singleton c) R))) = 0 := by
  refine ⟨replace_count_eq_total hwpx S, ?_⟩
  have hfree : c ∉ (package_extract_text
      (modify_package_texts hwpx (pyReplace (String.singleton c) R))).data := by
    refine join_free c _ "" (List.not_mem_nil c) ?_
    intro s hs
    have hmem := mem_foldl_filter_append
      (fun nt : String × XTree => XTree.tagTexts (qn hpURI "t") nt.2)
      (fun nt : String × XTree => isSectionName nt.1) s
      ((modify_package_texts hwpx (pyReplace (String.singleton c) R)).content_files)
      [] hs
    rcases hmem with h | ⟨nt, hnt, hsnt⟩
    · exact absurd h (List.not_mem_nil s)
    · rcases List.mem_map.mp hnt with ⟨orig, _, hEq⟩
      have hsnt' : s ∈ XTree.tagTexts (qn hpURI "t")
          (XTree.mapTexts (pyReplace (String.singleton c) R) orig.2) := by
        rw [← hEq] at hsnt
        exact hsnt
      obtain ⟨v, hv⟩ := mem_tagTexts_mapTexts (qn hpURI "t")
        (pyReplace (String.singleton c) R) orig.2 s hsnt'
      rw [hv]
      have hrepl : (pyReplace (String.singleton c) R v).data =
          replaceFuel [c] R.data v.data.length v.data := rfl
      rw [hrepl]
      exact replaceFuel_single_free c R.data hc v.data.length v.data (le_refl _)
  have hpc : pyCount (String.singleton c)
      (package_extract_text
        (modify_package_texts hwpx (pyReplace (String.singleton c) R))) =
      countFuel [c]
        (package_extract_text
          (modify_package_texts hwpx (pyReplace (String.singleton c) R))).data.length
        (package_extract_text
          (modify_package_texts hwpx (pyReplace (String.singleton c) R))).data := rfl
  rw [hpc]
  exact countFuel_single_zero c _ _ hfree

/-- **C7** counterexample.  A section with two adjacent text nodes `"a"`
and `"b"`: replacing `"ab"` by `"Z"` returns occurrence count 0 (the
search string occurs in no individual text node), yet extracting the full
text of the (unchanged) output yields `"ab"`, which contains one
occurrence of the search string — the zero-residue guarantee fails for
occurrences spanning node boundaries. -/
theorem claim7_counterexample :
    ce7Res.2 = 0 ∧
    pyCount "ab"
      (package_extract_text
        (modify_package_texts ((HWPXReader.read ce7A).toOption.getD {})
          (pyReplace "ab" "Z"))) = 1 ∧
    (1 : Nat) ≠ 0 := by
  refine ⟨by decide, by decide, by decide⟩

/-- **C7** witness: the theorem applied at the one-node package `pkg6`
with search character `'a'` and replacement `"zz"`. -/
theorem claim7_witness :
    'a' ∉ "zz".data ∧
    (replace_count pkg6 "ab" = totalOccurrences pkg6 "ab" ∧
     pyCount (String.singleton 'a')
       (package_extract_text
         (modify_package_texts pkg6 (pyReplace (String.singleton 'a') "zz"))) = 0) :=
  ⟨by decide, claim7_replace pkg6 'a' "zz" "ab" (by decide)⟩

/-- **C8** (confirmed).  The text-node enumeration is a deterministic
function of the package's content parts alone: two packages with equal
`content_files` enumerate identically (so two calls with no intervening
mutation agree), and the emitted global indices are exactly the positions
`0, 1, …` in the emitted sequence. -/
theorem claim8_enum_deterministic (p q : HWPXFile)
    (h : p.content_files = q.content_files) :
    enumerate_text_nodes p = enumerate_text_nodes q ∧
    (enumerate_text_nodes p).map (fun nd => nd.1) =
      List.range (enumerate_text_nodes p).length := by
  constructor
  · unfold enumerate_text_nodes
    rw [h]
  · unfold enumerate_text_nodes
    dsimp only
    rw [List.map_map,
      show ((fun nd : Nat × String × String × String => nd.1) ∘
        (fun pr : Nat × (String × String × String) =>
          (pr.1, pr.2.1, pr.2.2.1, pr.2.2.2))) =
        (Prod.fst : Nat × (String × String × String) → Nat) from rfl,
      List.enum_map_fst, List.length_map, List.enum_length]

/-- **C8** witness: two packages differing only outside `content_files`
enumerate identically, with indices `0, 1, 2`. -/
theorem claim8_witness :
    pkg8a.content_files = pkg8b.content_files ∧
    (enumerate_text_nodes pkg8a = enumerate_text_nodes pkg8b ∧
     (enumerate_text_nodes pkg8a).map (fun nd => nd.1) =
       List.range (enumerate_text_nodes pkg8a).length) :=
  ⟨rfl, claim8_enum_deterministic pkg8a pkg8b rfl⟩

/-! Namespace-assignment lemmas (C9). -/

theorem lookupA_val_mem {α : Type} :
    ∀ (l : List (String × α)) (k : String) (v : α),
      lookupA l k = some v → v ∈ l.map Prod.snd := by
  intro l
  induction l with
  | nil => intro k v h; exact Option.noConfusion h
  | cons p ps ih =>
    intro k v h
    rw [show lookupA (p :: ps) k =
        if p.1 = k then some p.2 else lookupA ps k from rfl] at h
    by_cases hk : p.1 = k
    · rw [if_pos hk] at h
      have hv : v = p.2 := ((Option.some.injEq _ _).mp h).symm
      rw [List.map_cons, hv]
      exact List.mem_cons_self _ _
    · rw [if_neg hk] at h
      rw [List.map_cons]
      exact List.mem_cons_of_mem _ (ih k v h)

/-- No registered serialized name looks like an auto-generated
placeholder. -/
theorem hwpxRegistry_no_autogen :
    ∀ v ∈ hwpxRegistry.map Prod.snd, nsAutoGen v = false := by decide

theorem nsAssign_fold_inv (reg : List (String × String))
    (hreg : ∀ v ∈ reg.map Prod.snd, nsAutoGen v = false) :
    ∀ (uris : List String) (st : List (String × String)),
      (∀ u ∈ uris, (lookupA reg u).isSome) →
      (∀ pr ∈ st, lookupA reg pr.1 = some pr.2 ∧ nsAutoGen pr.2 = false) →
      ∀ pr ∈ uris.foldl (nsVisitUri reg) st,
        lookupA reg pr.1 = some pr.2 ∧ nsAutoGen pr.2 = false := by
  intro uris
  induction uris with
  | nil => intro st _ hst pr hpr; exact hst pr hpr
  | cons u us ih =>
    intro st hu hst pr hpr
    rw [List.foldl_cons] at hpr
    refine ih (nsVisitUri reg st u)
      (fun x hx => hu x (List.mem_cons_of_mem u hx)) ?_ pr hpr
    intro q hq
    unfold nsVisitUri at hq
    by_cases hm : memA st u
    · rw [if_pos hm] at hq
      exact hst q hq
    · rw [if_neg hm] at hq
      obtain ⟨p, hp⟩ := Option.isSome_iff_exists.mp (hu u (List.mem_cons_self u us))
      rw [hp] at hq
      rcases List.mem_append.mp hq with h | h
      · exact hst q h
      · have hqe : q = (u, p) := List.mem_singleton.mp h
        subst hqe
        exact ⟨hp, hreg p (lookupA_val_mem reg u p hp)⟩

/-- **C9** (confirmed).  When every namespace URI used by a tree is in the
process-wide registration table installed before the write, the namespace
assignment the serializer computes maps each URI to its registered name —
the original prefix is retained — and never to an auto-generated
placeholder of the form `ns0`, `ns1`, …. -/
theorem claim9_prefixes (t : XTree)
    (h : ∀ u ∈ urisList t, (lookupA hwpxRegistry u).isSome) :
    ∀ pr ∈ nsAssign hwpxRegistry t,
      lookupA hwpxRegistry pr.1 = some pr.2 ∧ nsAutoGen pr.2 = false := by
  intro pr hpr
  exact nsAssign_fold_inv hwpxRegistry hwpxRegistry_no_autogen (urisList t) [] h
    (fun q hq => absurd hq (List.not_mem_nil q)) pr hpr

/-- **C9** witness: a tree using only the `hp` paragraph URI keeps the
registered prefix `hp`, which is not auto-generated. -/
theorem claim9_witness :
    (∀ u ∈ urisList t9, (lookupA hwpxRegistry u).isSome) ∧
    (hpURI, "hp") ∈ nsAssign hwpxRegistry t9 ∧
    (lookupA hwpxRegistry hpURI = some "hp" ∧ nsAutoGen "hp" = false) :=
  ⟨by decide, by decide,
   claim9_prefixes t9 (by decide) (hpURI, "hp") (by decide)⟩

/-! Chart-map lemmas (C10). -/

theorem chartStep_cases (a : Archive) (cs : List (String × String))
    (el : String × List (String × String) × Option String × Option String) :
    chartStep a cs el = cs ∨
    ∃ rf d, memA cs rf = false ∧ entryData a rf = some d ∧
      chartStep a cs el = setA cs rf d := by
  unfold chartStep
  cases hl : lookupA el.2.1 "chartIDRef" with
  | none => exact Or.inl rfl
  | some rf =>
    dsimp only
    by_cases he : rf.isEmpty
    · rw [if_pos he]; exact Or.inl rfl
    · rw [if_neg he]
      by_cases hm : memA cs rf
      · rw [if_pos hm]; exact Or.inl rfl
      · rw [if_neg hm]
        cases hd : entryData a rf with
        | none => exact Or.inl rfl
        | some d => exact Or.inr ⟨rf, d, by simpa using hm, hd, rfl⟩

theorem chartStep_keep (a : Archive) (cs : List (String × String))
    (el : String × List (String × String) × Option String × Option String)
    (r : String) (v : String) (h : lookupA cs r = some v) :
    lookupA (chartStep a cs el) r = some v := by
  rcases chartStep_cases a cs el with heq | ⟨rf, d, hm, _, heq⟩
  · rw [heq]; exact h
  · rw [heq]
    by_cases hr : rf = r
    · subst hr
      rw [memA, h] at hm
      exact absurd hm (by simp)
    · rw [lookupA_setA_ne cs rf r d (Ne.symm hr)]
      exact h

theorem chartStep_src (a : Archive) (cs : List (String × String))
    (el : String × List (String × String) × Option String × Option String)
    (r : String) (v : String) (h : lookupA (chartStep a cs el) r = some v) :
    lookupA cs r = some v ∨ entryData a r = some v := by
  rcases chartStep_cases a cs el with heq | ⟨rf, d, _, hd, heq⟩
  · rw [heq] at h; exact Or.inl h
  · rw [heq] at h
    by_cases hr : rf = r
    · subst hr
      rw [lookupA_setA_self] at h
      refine Or.inr ?_
      rw [hd]
      exact congrArg some ((Option.some.injEq _ _).mp h)
    · rw [lookupA_setA_ne cs rf r d (Ne.symm hr)] at h
      exact Or.inl h

theorem chartStep_absent (a : Archive) (cs : List (String × String))
    (el : String × List (String × String) × Option String × Option String)
    (r : String) (h : entryData a r = none) :
    lookupA (chartStep a cs el) r = lookupA cs r := by
  rcases chartStep_cases a cs el with heq | ⟨rf, d, _, hd, heq⟩
  · rw [heq]
  · rw [heq]
    by_cases hr : rf = r
    · subst hr
      rw [hd] at h
      exact Option.noConfusion h
    · exact lookupA_setA_ne cs rf r d (Ne.symm hr)

theorem chartStep_nodup (a : Archive) (cs : List (String × String))
    (el : String × List (String × String) × Option String × Option String)
    (h : (keysA cs).Nodup) : (keysA (chartStep a cs el)).Nodup := by
  rcases chartStep_cases a cs el with heq | ⟨rf, d, _, _, heq⟩
  · rw [heq]; exact h
  · rw [heq]; exact nodup_keysA_setA cs rf d h

theorem elems_fold_keep (a : Archive) :
    ∀ (els : List (String × List (String × String) × Option String × Option String))
      (cs : List (String × String)) (r v : String),
      lookupA cs r = some v →
      lookupA (els.foldl (chartStep a) cs) r = some v := by
  intro els
  induction els with
  | nil => intro cs r v h; exact h
  | cons el els ih =>
    intro cs r v h
    rw [List.foldl_cons]
    exact ih _ r v (chartStep_keep a cs el r v h)

theorem elems_fold_src (a : Archive) :
    ∀ (els : List (String × List (String × String) × Option String × Option String))
      (cs : List (String × String)) (r v : String),
      lookupA (els.foldl (chartStep a) cs) r = some v →
      lookupA cs r = some v ∨ entryData a r = some v := by
  intro els
  induction els with
  | nil => intro cs r v h; exact Or.inl h
  | cons el els ih =>
    intro cs r v h
    rw [List.foldl_cons] at h
    rcases ih _ r v h with h' | h'
    · exact chartStep_src a cs el r v h'
    · exact Or.inr h'

theorem elems_fold_absent (a : Archive) :
    ∀ (els : List (String × List (String × String) × Option String × Option String))
      (cs : List (String × String)) (r : String),
      entryData a r = none →
      lookupA (els.foldl (chartStep a) cs) r = lookupA cs r := by
  intro els
  induction els with
  | nil => intro cs r _; rfl
  | cons el els ih =>
    intro cs r h
    rw [List.foldl_cons, ih _ r h]
    exact chartStep_absent a cs el r h

theorem elems_fold_nodup (a : Archive) :
    ∀ (els : List (String × List (String × String) × Option String × Option String))
      (cs : List (String × String)),
      (keysA cs).Nodup → (keysA (els.foldl (chartStep a) cs)).Nodup := by
  intro els
  induction els with
  | nil => intro cs h; exact h
  | cons el els ih =>
    intro cs h
    rw [List.foldl_cons]
    exact ih _ (chartStep_nodup a cs el h)

/-- **C10** (confirmed).  Over any sequence of parsed content trees, the
chart map never overwrites an entry once present (the bytes loaded for the
first encountered reference are kept, also across parts), every entry's
bytes come from the archive entry of its reference id, a reference id
absent from the archive adds no map entry, and the map keeps at most one
entry per distinct reference id. -/
theorem claim10_charts (a : Archive) (ts : List XTree)
    (cs0 : List (String × String)) (r : String) :
    (∀ v, lookupA cs0 r = some v →
      lookupA (chartsOfTrees a ts cs0) r = some v) ∧
    (∀ v, lookupA (chartsOfTrees a ts cs0) r = some v →
      lookupA cs0 r = some v ∨ entryData a r = some v) ∧
    (entryData a r = none →
      lookupA (chartsOfTrees a ts cs0) r = lookupA cs0 r) ∧
    ((keysA cs0).Nodup → (keysA (chartsOfTrees a ts cs0)).Nodup) := by
  induction ts generalizing cs0 with
  | nil =>
    exact ⟨fun v h => h, fun v h => Or.inl h, fun _ => rfl, fun h => h⟩
  | cons t ts ih =>
    refine ⟨?_, ?_, ?_, ?_⟩
    · intro v h
      exact ((ih (extract_charts a t cs0)).1) v
        (elems_fold_keep a t.elems cs0 r v h)
    · intro v h
      rcases ((ih (extract_charts a t cs0)).2.1) v h with h' | h'
      · exact elems_fold_src a t.elems cs0 r v h'
      · exact Or.inr h'
    · intro h
      rw [show chartsOfTrees a (t :: ts) cs0 =
        chartsOfTrees a ts (extract_charts a t cs0) from rfl]
      rw [(ih (extract_charts a t cs0)).2.2.1 h]
      exact elems_fold_absent a t.elems cs0 r h
    · intro h
      exact ((ih (extract_charts a t cs0)).2.2.2)
        (elems_fold_nodup a t.elems cs0 h)

/-- **C10** witness: one chart entry `chart1` referenced twice plus a
dangling reference `chart2`. -/
theorem claim10_witness :
    lookupA (chartsOfTrees c10A [c10Tree1, c10Tree2] []) "chart1" =
      some "CHARTDATA" ∧
    (lookupA ([] : List (String × String)) "chart1" = some "CHARTDATA" ∨
      entryData c10A "chart1" = some "CHARTDATA") ∧
    entryData c10A "chart2" = none ∧
    lookupA (chartsOfTrees c10A [c10Tree1, c10Tree2] []) "chart2" =
      lookupA ([] : List (String × String)) "chart2" :=
  ⟨by decide,
   (claim10_charts c10A [c10Tree1, c10Tree2] [] "chart1").2.1 "CHARTDATA"
     (by decide),
   by decide,
   (claim10_charts c10A [c10Tree1, c10Tree2] [] "chart2").2.2.1 (by decide)⟩
